import Mathlib

/-!
# Memory-registration cache of aws-ofi-nccl

Shallow embedding of `src/src/nccl_ofi_mr.c` (with `src/include/nccl_ofi_mr.h`).

Modelling conventions.

* `uintptr_t` and `size_t` are 64-bit words: natural numbers, reduced modulo
  `WORD = 2 ^ 64` wherever the C arithmetic can wrap.
* `int` values (`refcnt`, status codes, the `size` argument) are integers.
  The counters `cache->size`, `cache->used` and the loop variable `slot`
  are natural numbers; signed overflow is undefined behaviour in C and is
  outside the model.
* `cache->slots` is an array of pointers to separately allocated entries.
  A cell of the array is modelled as the pointer value together with the
  entry it points to (`Slot`).  The array is modelled as flat memory
  `Nat → Slot`: cells at indices `>= size` stand for the memory behind the
  allocation, so that `memmove` is a total function and what it does to
  every index can be stated.
* The mutex is not modelled: one call runs at a time.
* Everything outside the file (the two communicators' `regMr` / `deregMr`
  function pointers, `calloc`, `realloc`, `errno`, `system_page_size`) is a
  field of `Env`.  Each of them may depend on the history of external calls
  made so far (`List Event`), so registration can succeed on one call and
  fail on the next.
* A negative `memmove` count (`size < slot`) cannot arise when
  `used <= size`; natural-number subtraction makes it zero.
* `assert(cache->slots)` is not modelled (the array is assumed to exist),
  and `calloc` of an entry is assumed to succeed.
-/

namespace NcclOfi

/-- Number of values of a `uintptr_t` / `size_t` word. -/
def WORD : Nat := 2 ^ 64

/-- Value of `ENOENT` from `errno.h`. -/
def ENOENT : Int := 2

/-- Value of `EINVAL` from `errno.h`. -/
def EINVAL : Int := 22

/-- A memory registration cache entry (`nccl_ofi_reg_entry_t`). -/
structure nccl_ofi_reg_entry where
  addr : Nat
  pages : Nat
  refcnt : Int
  handle : Nat
deriving DecidableEq, Repr

/-- One cell of `cache->slots`: the pointer stored in the cell and the entry
that pointer refers to. -/
structure Slot where
  ptr : Nat
  entry : nccl_ofi_reg_entry
deriving DecidableEq, Repr

/-- Device-specific memory registration cache (`nccl_ofi_mr_cache_t`).
`finalized` is a ghost flag set by `nccl_ofi_mr_cache_finalize`, which frees
the slots array and the cache object. -/
structure nccl_ofi_mr_cache where
  slots : Nat → Slot
  size : Nat
  used : Nat
  finalized : Bool

/-- External calls made by the cache code, in the order they happen. -/
inductive Event where
  | regMr (addr : Nat) (size : Int) (type : Int)
  | deregMr (mhandle : Nat)
  | calloc (ptr : Nat)
  | free (ptr : Nat)
  | realloc (count : Nat)
deriving DecidableEq, Repr

/-- The tag `comm->type` that `nccl_ofi_mr_reg_comm` and
`nccl_ofi_mr_dereg_comm` switch on. -/
inductive nccl_net_ofi_comm_type where
  | NCCL_NET_OFI_SEND_COMM
  | NCCL_NET_OFI_RECV_COMM
  | unexpected (t : Int)
deriving DecidableEq, Repr

/-- Everything the cache code takes from its environment.  `regMr` returns
the status and, when it stores one, the handle written through `mhandle`.
`realloc` returns `none` for a null result and otherwise the (indeterminate)
contents of the cells that the old array did not have. -/
structure Env where
  system_page_size : Nat
  comm_type : nccl_net_ofi_comm_type
  send_regMr : List Event → Nat → Int → Int → Int × Option Nat
  recv_regMr : List Event → Nat → Int → Int → Int × Option Nat
  send_deregMr : List Event → Nat → Int
  recv_deregMr : List Event → Nat → Int
  calloc : List Event → Nat
  realloc : List Event → Nat → Option (Nat → Slot)
  errno : List Event → Int

/-- Number of backend `regMr` invocations in a history. -/
def regCount (tr : List Event) : Nat :=
  (tr.filter (fun e => match e with
    | Event.regMr _ _ _ => true
    | _ => false)).length

/-- Number of backend `deregMr` invocations in a history. -/
def deregCount (tr : List Event) : Nat :=
  (tr.filter (fun e => match e with
    | Event.deregMr _ => true
    | _ => false)).length

/-- The live entries `slots[0 .. used)` with their pointers, in slot order. -/
def liveSlots (c : nccl_ofi_mr_cache) : List Slot :=
  (List.range c.used).map c.slots

/-- The live entries `slots[0 .. used)`, in slot order. -/
def live (c : nccl_ofi_mr_cache) : List nccl_ofi_reg_entry :=
  (List.range c.used).map (fun i => (c.slots i).entry)

/-- C `memmove` on the slots array, in units of one cell: `n` cells are
copied from index `src` to index `dst`, reading the old contents. -/
def memmove (mem : Nat → Slot) (dst src n : Nat) : Nat → Slot :=
  fun i => if dst ≤ i ∧ i < dst + n then mem (src + (i - dst)) else mem i

/-- The store `slots[slot] = v`. -/
def setSlot (mem : Nat → Slot) (slot : Nat) (v : Slot) : Nat → Slot :=
  fun i => if i = slot then v else mem i

/-- `nccl_ofi_mr_reg_comm`: dispatch on the communicator type to the send or
receive `regMr`; any other type yields `-EINVAL` without a backend call.
`mhandle` is the value of `*mhandle` before the call; the second component
of the result is its value afterwards. -/
def nccl_ofi_mr_reg_comm (env : Env) (tr : List Event) (addr : Nat) (size type : Int)
    (mhandle : Nat) : Int × Nat × List Event :=
  match env.comm_type with
  | nccl_net_ofi_comm_type.NCCL_NET_OFI_SEND_COMM =>
      let r := env.send_regMr tr addr size type
      (r.1, r.2.getD mhandle, tr ++ [Event.regMr addr size type])
  | nccl_net_ofi_comm_type.NCCL_NET_OFI_RECV_COMM =>
      let r := env.recv_regMr tr addr size type
      (r.1, r.2.getD mhandle, tr ++ [Event.regMr addr size type])
  | nccl_net_ofi_comm_type.unexpected _ => (-EINVAL, mhandle, tr)

/-- `nccl_ofi_mr_dereg_comm`: dispatch on the communicator type to the send
or receive `deregMr`; any other type yields `-EINVAL`. -/
def nccl_ofi_mr_dereg_comm (env : Env) (tr : List Event) (mhandle : Nat) :
    Int × List Event :=
  match env.comm_type with
  | nccl_net_ofi_comm_type.NCCL_NET_OFI_SEND_COMM =>
      (env.send_deregMr tr mhandle, tr ++ [Event.deregMr mhandle])
  | nccl_net_ofi_comm_type.NCCL_NET_OFI_RECV_COMM =>
      (env.recv_deregMr tr mhandle, tr ++ [Event.deregMr mhandle])
  | nccl_net_ofi_comm_type.unexpected _ => (-EINVAL, tr)

/-- `nccl_ofi_mr_cache_finalize`: frees the slots array and the cache. -/
def nccl_ofi_mr_cache_finalize (c : nccl_ofi_mr_cache) : nccl_ofi_mr_cache :=
  { c with finalized := true }

/-- `nccl_ofi_mr_cache_grow`: `size` is doubled first, then the array is
reallocated; on a null result the status is `errno` and `slots` is kept. -/
def nccl_ofi_mr_cache_grow (env : Env) (tr : List Event) (c : nccl_ofi_mr_cache) :
    Int × nccl_ofi_mr_cache × List Event :=
  let c1 : nccl_ofi_mr_cache := { c with size := c.size * 2 }
  let tr1 := tr ++ [Event.realloc c1.size]
  match env.realloc tr c1.size with
  | none => (env.errno tr1, c1, tr1)
  | some fresh =>
      (0, { c1 with slots := fun i => if i < c.size then c.slots i else fresh i }, tr1)

/-- The loop `for (i = ...; i < cache->used; i++)` of
`nccl_ofi_mr_cache_lookup`, with `n` iterations left from index `i`: return
`i` at the first cell with `handle == cache->slots[i]` (the pointer stored
in the cell), and `-1` after the last one. -/
def lookup_loop (c : nccl_ofi_mr_cache) (handle : Nat) : Nat → Nat → Int
  | 0, _ => -1
  | n + 1, i => if handle = (c.slots i).ptr then (i : Int) else lookup_loop c handle n (i + 1)

/-- `nccl_ofi_mr_cache_lookup(cache, handle)`. -/
def nccl_ofi_mr_cache_lookup (c : nccl_ofi_mr_cache) (handle : Nat) : Int :=
  lookup_loop c handle c.used 0

/-- `page_size = (uintptr_t) system_page_size`. -/
def page_size (env : Env) : Nat := env.system_page_size % WORD

/-- `addr = (uintptr_t)data & -page_size`, the start of the page of `data`. -/
def page_addr (env : Env) (data : Nat) : Nat :=
  (data % WORD) &&& ((WORD - page_size env) % WORD)

/-- `pages = ((uintptr_t)data + size - addr + page_size-1)/page_size`, in
word arithmetic. -/
def page_count (env : Env) (data : Nat) (size : Int) : Nat :=
  ((((data % WORD : Nat) : Int) + size - (page_addr env data : Int)
      + (page_size env : Int) - 1) % (WORD : Int)).toNat / page_size env

/-- The variables of `nccl_ofi_mr_cache_add_entry` that change while its
loop runs: the cache, the history of external calls, the caller's `*handle`
(`none` while nothing has been stored) and the local `ret`. -/
structure AddState where
  cache : nccl_ofi_mr_cache
  trace : List Event
  handle : Option Nat
  ret : Int

/-- How one iteration of the slot-scan loop ends. -/
inductive LoopStep where
  | out (s : AddState)
  | next (s : AddState)

/-- The hit condition of `nccl_ofi_mr_cache_add_entry` on entry `e`. -/
def hit_test (env : Env) (addr pages : Nat) (e : nccl_ofi_reg_entry) : Prop :=
  e.addr ≤ addr ∧ ((addr - e.addr) / page_size env + pages) % WORD ≤ e.pages

instance (env : Env) (addr pages : Nat) (e : nccl_ofi_reg_entry) :
    Decidable (hit_test env addr pages e) := by
  unfold hit_test; infer_instance

/-- The body of `for (int slot = 0;;slot++)` in
`nccl_ofi_mr_cache_add_entry`.  `out` is `goto out`; `next` falls through
to `slot++`.  The miss branch has no `goto out` on success. -/
def add_entry_body (env : Env) (data : Nat) (size type : Int) (slot : Nat)
    (s : AddState) : LoopStep :=
  let addr := page_addr env data
  let pages := page_count env data size
  let c := s.cache
  if slot = c.used ∨ addr < (c.slots slot).entry.addr then
    let g := if c.used = c.size then nccl_ofi_mr_cache_grow env s.trace c
             else (0, c, s.trace)
    let c1 := g.2.1
    let moved := memmove c1.slots (slot + 1) slot (c1.size - slot)
    let p := env.calloc g.2.2
    let r := nccl_ofi_mr_reg_comm env (g.2.2 ++ [Event.calloc p]) data size type 0
    if r.1 < 0 then
      LoopStep.out
        { cache := { c1 with slots := setSlot moved slot ⟨p, ⟨0, 0, 0, r.2.1⟩⟩ }
          trace := r.2.2
          handle := s.handle
          ret := r.1 }
    else
      LoopStep.next
        { cache := { c1 with
                     slots := setSlot moved slot ⟨p, ⟨addr, pages, 1, r.2.1⟩⟩
                     used := c1.used + 1 }
          trace := r.2.2
          handle := some r.2.1
          ret := r.1 }
  else if hit_test env addr pages (c.slots slot).entry then
    let cell := c.slots slot
    LoopStep.out
      { s with
        cache := { c with
                   slots := setSlot c.slots slot
                     ⟨cell.ptr, { cell.entry with refcnt := cell.entry.refcnt + 1 }⟩ }
        handle := some cell.entry.handle }
  else
    LoopStep.next s

/-- Result of running the loop for a bounded number of iterations. -/
inductive Outcome where
  | returned (s : AddState)
  | running (slot : Nat) (s : AddState)

/-- The loop of `nccl_ofi_mr_cache_add_entry` from `slot`, run for at most
`fuel` iterations. -/
def add_entry_loop (env : Env) (data : Nat) (size type : Int) :
    Nat → Nat → AddState → Outcome
  | 0, slot, s => Outcome.running slot s
  | fuel + 1, slot, s =>
      match add_entry_body env data size type slot s with
      | LoopStep.out s1 => Outcome.returned s1
      | LoopStep.next s1 => add_entry_loop env data size type fuel (slot + 1) s1

/-- `nccl_ofi_mr_cache_add_entry(cache, data, size, type, handle)`, run for
at most `fuel` loop iterations.  `returned s` means the function returned
`s.ret` leaving the cache `s.cache` and `*handle = s.handle`. -/
def nccl_ofi_mr_cache_add_entry (env : Env) (fuel : Nat) (c : nccl_ofi_mr_cache)
    (tr : List Event) (data : Nat) (size type : Int) (handle : Option Nat) : Outcome :=
  add_entry_loop env data size type fuel 0 ⟨c, tr, handle, 0⟩

/-- `nccl_ofi_mr_cache_del_entry(cache, handle)`: status, cache and history
after the call. -/
def nccl_ofi_mr_cache_del_entry (env : Env) (c : nccl_ofi_mr_cache) (tr : List Event)
    (handle : Nat) : Int × nccl_ofi_mr_cache × List Event :=
  let slot := nccl_ofi_mr_cache_lookup c handle
  if slot < 0 then
    (-ENOENT, c, tr)
  else
    let i := slot.toNat
    let cell := c.slots i
    let c1 : nccl_ofi_mr_cache :=
      { c with slots := setSlot c.slots i
                 ⟨cell.ptr, { cell.entry with refcnt := cell.entry.refcnt - 1 }⟩ }
    if cell.entry.refcnt - 1 ≠ 0 then
      (0, c1, tr)
    else
      let d := nccl_ofi_mr_dereg_comm env tr cell.entry.handle
      let tr2 := d.2 ++ [Event.free cell.ptr]
      let c2 : nccl_ofi_mr_cache :=
        { c1 with slots := memmove c1.slots i (i + 1) (c1.size - i - 1)
                  used := c1.used - 1 }
      if c2.used = 0 then
        (0, nccl_ofi_mr_cache_finalize c2, tr2)
      else
        (0, c2, tr2)

/-! ## Example environments and caches -/

/-- The null cell: a null pointer with an all-zero entry. -/
def nullSlot : Slot := ⟨0, ⟨0, 0, 0, 0⟩⟩

/-- Number of `calloc` calls in a history. -/
def callocCount (tr : List Event) : Nat :=
  (tr.filter (fun e => match e with
    | Event.calloc _ => true
    | _ => false)).length

/-- Example environment: page size 4096 and a send communicator.  The
registration that follows `n` earlier ones fails with `-1` when `fails n`,
and otherwise returns `0` and stores the handle `7000 + n`.  Every
deregistration returns `dereg`.  The `calloc` that follows `n` earlier ones
returns the pointer `1000 + 32 * n`; `realloc` succeeds. -/
def demoEnv (fails : Nat → Bool) (dereg : Int) : Env :=
  { system_page_size := 4096
    comm_type := nccl_net_ofi_comm_type.NCCL_NET_OFI_SEND_COMM
    send_regMr := fun tr _ _ _ =>
      if fails (regCount tr) then (-1, none) else (0, some (7000 + regCount tr))
    recv_regMr := fun _ _ _ _ => (-1, none)
    send_deregMr := fun _ _ => dereg
    recv_deregMr := fun _ _ => dereg
    calloc := fun tr => 1000 + 32 * callocCount tr
    realloc := fun _ _ => some (fun _ => nullSlot)
    errno := fun _ => 12 }

/-- An empty cache with capacity `n`. -/
def emptyCache (n : Nat) : nccl_ofi_mr_cache := ⟨fun _ => nullSlot, n, 0, false⟩

/-! ## Sequences of calls and the order predicate -/

/-- The half-open ranges `[a1, a1 + n1 * ps)` and `[a2, a2 + n2 * ps)` share
a byte. -/
def page_range_overlap (ps a1 n1 a2 n2 : Nat) : Prop :=
  max a1 a2 < min (a1 + n1 * ps) (a2 + n2 * ps)

instance (ps a1 n1 a2 n2 : Nat) : Decidable (page_range_overlap ps a1 n1 a2 n2) := by
  unfold page_range_overlap; infer_instance

/-- The page ranges `[addr, addr + pages * ps)` of two entries share a byte. -/
def overlap (ps : Nat) (a b : nccl_ofi_reg_entry) : Prop :=
  page_range_overlap ps a.addr a.pages b.addr b.pages

instance (ps : Nat) (a b : nccl_ofi_reg_entry) : Decidable (overlap ps a b) := by
  unfold overlap; infer_instance

/-- The order invariant of the specification on a sequence of entries:
strictly increasing `addr`, and no two page ranges overlap. -/
def ordered (ps : Nat) (l : List nccl_ofi_reg_entry) : Prop :=
  l.Pairwise (fun a b => a.addr < b.addr ∧ ¬ overlap ps a b)

instance (ps : Nat) (l : List nccl_ofi_reg_entry) : Decidable (ordered ps l) := by
  unfold ordered; infer_instance

/-- The arguments `(data, size, type)` of one registration request. -/
structure Request where
  data : Nat
  size : Int
  type : Int
deriving DecidableEq, Repr

/-- One call into the cache. -/
inductive Call where
  | add (r : Request)
  | del (handle : Nat)
deriving DecidableEq, Repr

/-- What a call gave back: its status and, for `add`, what it stored in
`*handle` (`none` when it stored nothing). -/
structure Reply where
  ret : Int
  handle : Option Nat
deriving DecidableEq, Repr

/-- Run calls one after the other on the same cache, each add with at most
`fuel` loop iterations.  `none` when some add has not returned within
`fuel` iterations. -/
def run_calls (env : Env) (fuel : Nat) :
    List Call → nccl_ofi_mr_cache → List Event →
      Option (List Reply × nccl_ofi_mr_cache × List Event)
  | [], c, tr => some ([], c, tr)
  | Call.add r :: rest, c, tr =>
      match nccl_ofi_mr_cache_add_entry env fuel c tr r.data r.size r.type none with
      | Outcome.running _ _ => none
      | Outcome.returned s =>
          match run_calls env fuel rest s.cache s.trace with
          | none => none
          | some (out, c1, tr1) => some (⟨s.ret, s.handle⟩ :: out, c1, tr1)
  | Call.del h :: rest, c, tr =>
      let d := nccl_ofi_mr_cache_del_entry env c tr h
      match run_calls env fuel rest d.2.1 d.2.2 with
      | none => none
      | some (out, c1, tr1) => some (⟨d.1, none⟩ :: out, c1, tr1)

/-- The cache `c` with `n` added to the reference count of the entry in
slot `i`, and nothing else changed. -/
def addRef (c : nccl_ofi_mr_cache) (i : Nat) (n : Int) : nccl_ofi_mr_cache :=
  { c with slots := setSlot c.slots i
             ⟨(c.slots i).ptr,
              { (c.slots i).entry with refcnt := (c.slots i).entry.refcnt + n }⟩ }

/-- The cache of the scenario after the first registration: capacity 128,
one live entry for the page range `[4096, 12288)` (two pages of 4096 bytes)
with handle `H1 = 7000`, stored at the pointer `1000`, with the given
reference count. -/
def cacheH1 (refcnt : Int) : nccl_ofi_mr_cache :=
  ⟨setSlot (fun _ => nullSlot) 0 ⟨1000, ⟨4096, 2, refcnt, 7000⟩⟩, 128, 1, false⟩

/-- The history that goes with `cacheH1`: the entry was allocated at `1000`
and the backend registered once. -/
def histH1 : List Event := [Event.calloc 1000, Event.regMr 4096 8192 0]

/-- A cache with one live entry for `[4096, 12288)` whose backend handle
`1000` has the same value as the pointer to the entry, so that the handle is
found both by the stored handle and by the pointer. -/
def cacheSame : nccl_ofi_mr_cache :=
  ⟨setSlot (fun _ => nullSlot) 0 ⟨1000, ⟨4096, 2, 1, 1000⟩⟩, 128, 1, false⟩

/-- The loop of `nccl_ofi_mr_cache_add_entry` stands at a slot where the miss
branch is taken again: either `slot = used`, or the entry in `slot` is live,
starts above the request's base, and the array has room for the shift. -/
def miss_pending (env : Env) (data : Nat) (slot : Nat) (s : AddState) : Prop :=
  slot = s.cache.used ∨
    (slot < s.cache.used ∧ s.cache.used ≤ s.cache.size ∧
      page_addr env data < (s.cache.slots slot).entry.addr)

/-! ## Further definitions: scan positions, touched indices, initialisation -/

/-- The scan of `nccl_ofi_mr_cache_add_entry` for the request `(data, size)`
reaches slot `i` and takes the hit branch there: slot `i` is live, no earlier
slot takes the miss branch or the hit branch, and slot `i` passes the hit
test. -/
def hits_at (env : Env) (c : nccl_ofi_mr_cache) (data : Nat) (size : Int) (i : Nat) : Prop :=
  i < c.used ∧
  (∀ j, j < i → ¬ page_addr env data < (c.slots j).entry.addr ∧
    ¬ hit_test env (page_addr env data) (page_count env data size) (c.slots j).entry) ∧
  ¬ page_addr env data < (c.slots i).entry.addr ∧
  hit_test env (page_addr env data) (page_count env data size) (c.slots i).entry

instance (env : Env) (c : nccl_ofi_mr_cache) (data : Nat) (size : Int) (i : Nat) :
    Decidable (hits_at env c data size i) := by
  unfold hits_at; infer_instance

/-- The state carried by an outcome of the loop, returned or still running. -/
def Outcome.state : Outcome → AddState
  | Outcome.returned s => s
  | Outcome.running _ s => s

/-- Indices of the cells read by `memmove(slots + dst, slots + src, n cells)`. -/
def memmove_reads (src n : Nat) : List Nat := List.range' src n

/-- Indices of the cells written by `memmove(slots + dst, slots + src, n cells)`. -/
def memmove_writes (dst n : Nat) : List Nat := List.range' dst n

/-- The cache after the grow-if-full step at the head of the miss branch of
`nccl_ofi_mr_cache_add_entry`. -/
def grow_if_full (env : Env) (tr : List Event) (c : nccl_ofi_mr_cache) : nccl_ofi_mr_cache :=
  (if c.used = c.size then nccl_ofi_mr_cache_grow env tr c else (0, c, tr)).2.1

/-- The history of external calls at the moment the miss branch of
`nccl_ofi_mr_cache_add_entry` calls `nccl_ofi_mr_reg_comm`, when the branch
is entered with cache `c` and history `tr`: the grow-if-full step and the
`calloc` of the new entry have happened. -/
def miss_reg_trace (env : Env) (tr : List Event) (c : nccl_ofi_mr_cache) : List Event :=
  (if c.used = c.size then nccl_ofi_mr_cache_grow env tr c else (0, c, tr)).2.2 ++
    [Event.calloc (env.calloc
      (if c.used = c.size then nccl_ofi_mr_cache_grow env tr c else (0, c, tr)).2.2)]

/-- The status of the one registration that the miss branch makes when it
is entered with cache `c` and history `tr` for the request
`(data, size, type)`. -/
def miss_reg_status (env : Env) (tr : List Event) (c : nccl_ofi_mr_cache) (data : Nat)
    (size type : Int) : Int :=
  (nccl_ofi_mr_reg_comm env (miss_reg_trace env tr c) data size type 0).1

/-- The pointer that `calloc` returns for the new entry when the miss
branch is entered with cache `c` and history `tr`. -/
def miss_calloc_ptr (env : Env) (tr : List Event) (c : nccl_ofi_mr_cache) : Nat :=
  env.calloc (if c.used = c.size then nccl_ofi_mr_cache_grow env tr c else (0, c, tr)).2.2

/-- Example environment like `demoEnv`, except that every `realloc` returns a
null pointer, with `errno = 12` (`ENOMEM`). -/
def demoEnvNoMem (fails : Nat → Bool) (dereg : Int) : Env :=
  { demoEnv fails dereg with realloc := fun _ _ => none }

/-- A full cache: capacity 1, one live entry for `[4096, 12288)` with handle
`7000`, stored at the pointer `1000`. -/
def cacheFull : nccl_ofi_mr_cache :=
  ⟨setSlot (fun _ => nullSlot) 0 ⟨1000, ⟨4096, 2, 1, 7000⟩⟩, 1, 1, false⟩

/-- What `nccl_ofi_mr_cache_init` takes from its environment: the result of
`calloc(1, sizeof(*cache))` (`none` for a null pointer), the value of `errno`
after a failed `calloc`, and the status of `nccl_net_ofi_mutex_init`. -/
structure InitEnv where
  calloc_cache : Option Nat
  errno : Int
  mutex_init : Int

/-- Memory after `nccl_ofi_mr_cache_init`: the status, the object the
caller's pointer refers to, and the object allocated inside the function
(which only the local variable `cache` points to). -/
structure InitResult where
  ret : Int
  cache : nccl_ofi_mr_cache
  allocated : Option nccl_ofi_mr_cache

/-- `nccl_ofi_mr_cache_init(cache, size)`.  The function assigns the result
of `calloc` to its parameter `cache`, initialises the mutex of that new
zero-filled object and returns; it stores nothing through the pointer it was
given and does not use `size`. -/
def nccl_ofi_mr_cache_init (ienv : InitEnv) (cache : nccl_ofi_mr_cache) (size : Int) :
    InitResult :=
  match ienv.calloc_cache with
  | none => ⟨ienv.errno, cache, none⟩
  | some _ => ⟨ienv.mutex_init, cache, some ⟨fun _ => nullSlot, 0, 0, false⟩⟩

/-- An empty cache of capacity 128 whose last cell, index 127, holds a
leftover value (pointer `9999`); the memory behind the array is null. -/
def cacheTail : nccl_ofi_mr_cache :=
  ⟨setSlot (fun _ => nullSlot) 127 ⟨9999, ⟨1, 1, 1, 1⟩⟩, 128, 0, false⟩

/-! ## The NCCL interface shims (`src/src/nccl_ofi_interface_nvidia.c`) -/

/-- The plugin's device properties (`nccl_ofi_properties_t`), as far as the
shims read them.  `char *` values are strings. -/
structure nccl_ofi_properties where
  name : String
  pci_path : String
  guid : Nat
  hmem_support : Bool
  dmabuf_support : Bool
  port_speed : Int
  port_number : Int
  latency : Int
  max_communicators : Int
  max_group_receives : Int
deriving DecidableEq, Repr

/-- NCCL's version 6 properties record (`ncclNetProperties_v6_t`). -/
structure ncclNetProperties_v6 where
  name : String
  pciPath : String
  guid : Nat
  ptrSupport : Nat
  speed : Int
  port : Int
  latency : Int
  maxComms : Int
  maxRecvs : Int
deriving DecidableEq, Repr

/-- What the shims take from headers and functions outside the file: the
constants `ncclSuccess`, `NCCL_PTR_HOST`, `NCCL_PTR_CUDA`, `NCCL_PTR_DMABUF`,
and `nccl_net_ofi_get_properties`, which for a device id returns a status
and the properties it stored through its second argument. -/
structure NetEnv where
  ncclSuccess : Int
  NCCL_PTR_HOST : Nat
  NCCL_PTR_CUDA : Nat
  NCCL_PTR_DMABUF : Nat
  nccl_net_ofi_get_properties : Int → Int × nccl_ofi_properties

/-- `getProperties_v6(dev_id, props)`: the status and `*props` after the
call.  `props` is `*props` before the call; it is left as it was when
`nccl_net_ofi_get_properties` fails. -/
def getProperties_v6 (nenv : NetEnv) (dev_id : Int) (props : ncclNetProperties_v6) :
    Int × ncclNetProperties_v6 :=
  let r := nenv.nccl_net_ofi_get_properties dev_id
  let ofi_properties := r.2
  if r.1 ≠ nenv.ncclSuccess then
    (r.1, props)
  else
    let ptr0 := nenv.NCCL_PTR_HOST
    let ptr1 := if ofi_properties.hmem_support then ptr0 ||| nenv.NCCL_PTR_CUDA else ptr0
    let ptr2 := if ofi_properties.dmabuf_support then ptr1 ||| nenv.NCCL_PTR_DMABUF else ptr1
    (nenv.ncclSuccess,
      { name := ofi_properties.name
        pciPath := ofi_properties.pci_path
        guid := ofi_properties.guid
        ptrSupport := ptr2
        speed := ofi_properties.port_speed
        port := ofi_properties.port_number
        latency := ofi_properties.latency
        maxComms := ofi_properties.max_communicators
        maxRecvs := ofi_properties.max_group_receives })

/-- `pciPath_v2(dev_id, path)`: the status and `*path` after the call.
`path` is `*path` before the call, and `props_v6` the indeterminate initial
contents of the local variable of that name. -/
def pciPath_v2 (nenv : NetEnv) (dev_id : Int) (path : Option String)
    (props_v6 : ncclNetProperties_v6) : Int × Option String :=
  let r := getProperties_v6 nenv dev_id props_v6
  if r.1 ≠ nenv.ncclSuccess then
    (r.1, path)
  else
    (nenv.ncclSuccess, some r.2.name)

/-- Example: `ncclSuccess = 0`, pointer-support flags 1, 2 and 4, and one
device, id 0, named `ofi0` with PCI path `/sys/devices/pci0000:00`; every
other device id is answered with the error status 2. -/
def demoNetEnv : NetEnv :=
  { ncclSuccess := 0
    NCCL_PTR_HOST := 1
    NCCL_PTR_CUDA := 2
    NCCL_PTR_DMABUF := 4
    nccl_net_ofi_get_properties := fun dev_id =>
      if dev_id = 0 then
        (0, ⟨"ofi0", "/sys/devices/pci0000:00", 7, false, false, 100000, 1, 0, 8, 1⟩)
      else (2, ⟨"", "", 0, false, false, 0, 0, 0, 0, 0⟩) }

/-- Example of the indeterminate contents of an uninitialised properties
record. -/
def stackProps : ncclNetProperties_v6 := ⟨"?", "?", 0, 0, 0, 0, 0, 0, 0⟩

/-! ## Page rounding -/

theorem land_neg_pow_two (x k : Nat) (hk : 2 ^ k < WORD) (hx : x < WORD) :
    x &&& (WORD - 2 ^ k) = 2 ^ k * (x / 2 ^ k) := by
  have hk64 : k < 64 := by
    unfold WORD at hk
    exact (Nat.pow_lt_pow_iff_right (by decide : 1 < 2)).mp hk
  apply Nat.eq_of_testBit_eq
  intro i
  have hm : WORD - 2 ^ k = 2 ^ 64 - ((2 ^ k - 1) + 1) := by
    have : 0 < 2 ^ k := Nat.two_pow_pos k
    unfold WORD; omega
  have hlt : 2 ^ k - 1 < 2 ^ 64 := by unfold WORD at hk; omega
  rw [Nat.testBit_and, hm, Nat.testBit_two_pow_sub_succ hlt, Nat.testBit_two_pow_sub_one,
    Nat.testBit_mul_pow_two, ← Nat.shiftRight_eq_div_pow, Nat.testBit_shiftRight]
  by_cases hik : k ≤ i
  · by_cases hi64 : i < 64
    · have h1 : ¬ i < k := by omega
      have h2 : k + (i - k) = i := by omega
      simp [hik, hi64, h1, h2]
    · have h3 : x.testBit i = false := by
        apply Nat.testBit_lt_two_pow
        have : 2 ^ 64 ≤ 2 ^ i := Nat.pow_le_pow_right (by decide) (by omega)
        unfold WORD at hx; omega
      have h2 : k + (i - k) = i := by omega
      simp [h3, h2]
  · have h1 : i < k := by omega
    simp [hik, h1]


theorem page_addr_pow_two (env : Env) (k data : Nat) (hps : env.system_page_size = 2 ^ k)
    (hk : 2 ^ k < WORD) (hd : data < WORD) :
    page_addr env data = 2 ^ k * (data / 2 ^ k) := by
  have hpos : 0 < 2 ^ k := Nat.two_pow_pos k
  unfold page_addr page_size
  rw [hps, Nat.mod_eq_of_lt hk, Nat.mod_eq_of_lt hd,
    Nat.mod_eq_of_lt (by omega : WORD - 2 ^ k < WORD)]
  exact land_neg_pow_two data k hk hd

theorem page_count_bounds (env : Env) (k data : Nat) (size : Int)
    (hps : env.system_page_size = 2 ^ k) (hsize : 0 ≤ size)
    (hfit : (data : Int) + size + (2 : Int) ^ k < (WORD : Int)) :
    (data : Int) + size ≤ page_addr env data + page_count env data size * 2 ^ k ∧
    (page_addr env data : Int) + page_count env data size * 2 ^ k
      < (data : Int) + size + 2 ^ k := by
  have hpos : 0 < 2 ^ k := Nat.two_pow_pos k
  have hposZ : (0 : Int) < 2 ^ k := by positivity
  have hk : 2 ^ k < WORD := by
    have : ((2 ^ k : Nat) : Int) < (WORD : Int) := by push_cast; omega
    exact_mod_cast this
  have hd : data < WORD := by
    have : (data : Int) < (WORD : Int) := by omega
    exact_mod_cast this
  have ha := page_addr_pow_two env k data hps hk hd
  have hale : page_addr env data ≤ data := by
    rw [ha]; exact Nat.mul_div_le data (2 ^ k)
  unfold page_count
  rw [Nat.mod_eq_of_lt hd]
  have hpsz : page_size env = 2 ^ k := by
    unfold page_size; rw [hps, Nat.mod_eq_of_lt hk]
  rw [hpsz]
  generalize page_addr env data = a at *
  have haZ : (a : Int) ≤ data := by exact_mod_cast hale
  set N : Int := (data : Int) + size - a + ((2 ^ k : Nat) : Int) - 1 with hN
  have hN0 : 0 ≤ N := by rw [hN]; push_cast; omega
  have hNW : N < (WORD : Int) := by rw [hN]; push_cast; omega
  rw [Int.emod_eq_of_lt hN0 hNW]
  have hcast : ((N.toNat / 2 ^ k : Nat) : Int) = N / 2 ^ k := by
    rw [Int.natCast_ediv, Int.toNat_of_nonneg hN0]; push_cast; rfl
  rw [hcast]
  have h1 := Int.emod_add_ediv N (2 ^ k)
  have h2 := Int.emod_nonneg N (ne_of_gt hposZ)
  have h3 := Int.emod_lt_of_pos N hposZ
  have hmul : N / 2 ^ k * 2 ^ k = 2 ^ k * (N / 2 ^ k) := by ring
  rw [hmul]
  rw [hN] at h1 h2 h3 ⊢
  push_cast at h1 h2 h3 ⊢
  constructor <;> omega


/-- C4 (page rounding).  For a page size `2 ^ k`, `size >= 0` and
`data + size + page_size` below the word limit, the values computed by
`nccl_ofi_mr_cache_add_entry` satisfy: `addr = data & -page_size` is a
multiple of the page size, is `<= data`, and every multiple of the page size
that is `<= data` is `<= addr`; `pages` equals the ceiling of
`(data + size - addr) / page_size`; every byte of `[data, data + size)` lies
in `[addr, addr + pages * page_size)`, and `data + size` is at most
`addr + pages * page_size`; `pages` is the least page count `n` with
`data + size <= addr + n * page_size`, and for `size > 0` the least `n`
whose range contains every byte of the request. -/
theorem C4_page_rounding (env : Env) (k data : Nat) (size : Int)
    (hps : env.system_page_size = 2 ^ k) (hsize : 0 ≤ size)
    (hfit : (data : Int) + size + (2 : Int) ^ k < (WORD : Int)) :
    (2 ^ k ∣ page_addr env data ∧ page_addr env data ≤ data ∧
      ∀ m : Nat, 2 ^ k ∣ m → m ≤ data → m ≤ page_addr env data) ∧
    (page_count env data size : Int)
      = ⌈((((data : Int) + size - page_addr env data : Int) : ℚ)) / (((2 : Int) ^ k : Int) : ℚ)⌉ ∧
    (∀ x : Int, (data : Int) ≤ x → x < data + size →
      (page_addr env data : Int) ≤ x ∧
      x < page_addr env data + page_count env data size * 2 ^ k) ∧
    (data : Int) + size ≤ page_addr env data + page_count env data size * 2 ^ k ∧
    (∀ n : Nat, (data : Int) + size ≤ page_addr env data + n * 2 ^ k →
      page_count env data size ≤ n) ∧
    (0 < size → ∀ n : Nat,
      (∀ x : Int, (data : Int) ≤ x → x < data + size → x < page_addr env data + n * 2 ^ k) →
      page_count env data size ≤ n) := by
  have hpos : 0 < 2 ^ k := Nat.two_pow_pos k
  have hposZ : (0 : Int) < 2 ^ k := by positivity
  have hk : 2 ^ k < WORD := by
    have : ((2 ^ k : Nat) : Int) < (WORD : Int) := by push_cast; omega
    exact_mod_cast this
  have hd : data < WORD := by
    have : (data : Int) < (WORD : Int) := by omega
    exact_mod_cast this
  have ha := page_addr_pow_two env k data hps hk hd
  obtain ⟨hlo, hhi⟩ := page_count_bounds env k data size hps hsize hfit
  have hale : page_addr env data ≤ data := by
    rw [ha]; exact Nat.mul_div_le data (2 ^ k)
  have haleZ : (page_addr env data : Int) ≤ data := by exact_mod_cast hale
  have hleast : ∀ n : Nat, (data : Int) + size ≤ page_addr env data + n * 2 ^ k →
      page_count env data size ≤ n := by
    intro n hn
    have h : (page_count env data size : Int) * 2 ^ k < ((n : Int) + 1) * 2 ^ k := by
      have : ((n : Int) + 1) * 2 ^ k = n * 2 ^ k + 2 ^ k := by ring
      omega
    have h2 := lt_of_mul_lt_mul_right h (le_of_lt hposZ)
    omega
  refine ⟨⟨?_, hale, ?_⟩, ?_, ?_, hlo, hleast, ?_⟩
  · rw [ha]; exact Dvd.intro _ rfl
  · intro m hm hmd
    rw [ha]
    obtain ⟨q, rfl⟩ := hm
    have : q ≤ data / 2 ^ k := by
      rw [Nat.le_div_iff_mul_le hpos]; rw [Nat.mul_comm]; exact hmd
    exact Nat.mul_le_mul_left _ this
  · symm
    rw [Int.ceil_eq_iff]
    have hq : (0 : ℚ) < (((2 : Int) ^ k : Int) : ℚ) := by exact_mod_cast hposZ
    constructor
    · rw [lt_div_iff₀ hq]
      have : ((page_count env data size : Int) - 1) * 2 ^ k
          < (data : Int) + size - page_addr env data := by
        have : ((page_count env data size : Int) - 1) * 2 ^ k
            = (page_count env data size : Int) * 2 ^ k - 2 ^ k := by ring
        omega
      exact_mod_cast this
    · rw [div_le_iff₀ hq]
      have : (data : Int) + size - page_addr env data
          ≤ (page_count env data size : Int) * 2 ^ k := by omega
      exact_mod_cast this
  · intro x hx1 hx2
    constructor <;> omega
  · intro hs n hn
    apply hleast
    have := hn ((data : Int) + size - 1) (by omega) (by omega)
    omega

/-- Witness for C4: page size 4096, `data = 5000`, `size = 100`; one page
suffices, so `pages <= 1`. -/
theorem C4_page_rounding_witness :
    (demoEnv (fun _ => false) 0).system_page_size = 2 ^ 12 ∧ (0 : Int) ≤ 100 ∧
    ((5000 : Nat) : Int) + 100 + (2 : Int) ^ 12 < (WORD : Int) ∧
    page_count (demoEnv (fun _ => false) 0) 5000 100 ≤ 1 :=
  ⟨rfl, by decide, by decide,
    (C4_page_rounding (demoEnv (fun _ => false) 0) 12 5000 100 rfl (by decide)
      (by decide)).2.2.2.2.1 1 (by decide)⟩


/-! ## The slot-scan loop after a miss -/

theorem regCount_append (a b : List Event) : regCount (a ++ b) = regCount a + regCount b := by
  simp [regCount, List.filter_append]

theorem grow_used (env : Env) (tr : List Event) (c : nccl_ofi_mr_cache) :
    (nccl_ofi_mr_cache_grow env tr c).2.1.used = c.used := by
  unfold nccl_ofi_mr_cache_grow
  dsimp only
  split <;> rfl

theorem grow_regCount (env : Env) (tr : List Event) (c : nccl_ofi_mr_cache) :
    regCount (nccl_ofi_mr_cache_grow env tr c).2.2 = regCount tr := by
  unfold nccl_ofi_mr_cache_grow
  dsimp only
  split <;> simp [regCount_append, regCount]

theorem grow_size (env : Env) (tr : List Event) (c : nccl_ofi_mr_cache) :
    (nccl_ofi_mr_cache_grow env tr c).2.1.size = c.size * 2 := by
  unfold nccl_ofi_mr_cache_grow
  dsimp only
  split <;> rfl

theorem grow_slots (env : Env) (tr : List Event) (c : nccl_ofi_mr_cache) (a : Nat)
    (ha : a < c.size) : (nccl_ofi_mr_cache_grow env tr c).2.1.slots a = c.slots a := by
  unfold nccl_ofi_mr_cache_grow
  dsimp only
  split
  · rfl
  · simp [ha]

theorem demo_miss_step (d : Int) (data : Nat) (size type : Int) (s : AddState) :
    ∃ s1, add_entry_body (demoEnv (fun _ => false) d) data size type s.cache.used s
        = LoopStep.next s1 ∧
      s1.cache.used = s.cache.used + 1 ∧ regCount s1.trace = regCount s.trace + 1 := by
  unfold add_entry_body
  simp only [true_or, if_true]
  have hr : ∀ tr, ¬ (nccl_ofi_mr_reg_comm (demoEnv (fun _ => false) d) tr data size type 0).1 < 0 := by
    intro tr; simp [nccl_ofi_mr_reg_comm, demoEnv]
  have ht : ∀ tr, regCount (nccl_ofi_mr_reg_comm (demoEnv (fun _ => false) d) tr data size type 0).2.2
      = regCount tr + 1 := by
    intro tr; simp [nccl_ofi_mr_reg_comm, demoEnv, regCount_append, regCount]
  rw [if_neg (hr _)]
  refine ⟨_, rfl, ?_, ?_⟩
  · by_cases h : s.cache.used = s.cache.size
    · simp [h, grow_used]
    · simp [h]
  · rw [ht, regCount_append]
    have hc : ∀ p, regCount [Event.calloc p] = 0 := fun _ => rfl
    by_cases h : s.cache.used = s.cache.size
    · simp only [h, if_true, grow_regCount, hc, Nat.add_zero]
    · simp only [h, if_false, hc, Nat.add_zero]

theorem demo_loop_running (d : Int) (data : Nat) (size type : Int) :
    ∀ (fuel : Nat) (s : AddState),
    ∃ s1, add_entry_loop (demoEnv (fun _ => false) d) data size type fuel s.cache.used s
        = Outcome.running (s.cache.used + fuel) s1 ∧
      s1.cache.used = s.cache.used + fuel ∧ regCount s1.trace = regCount s.trace + fuel := by
  intro fuel
  induction fuel with
  | zero => intro s; exact ⟨s, rfl, rfl, rfl⟩
  | succ n ih =>
    intro s
    obtain ⟨s1, h1, h2, h3⟩ := demo_miss_step d data size type s
    obtain ⟨s2, g1, g2, g3⟩ := ih s1
    refine ⟨s2, ?_, ?_, ?_⟩
    · simp only [add_entry_loop, h1]
      rw [← h2, g1, h2]; congr 1; omega
    · omega
    · omega

/-- C1 (a successful miss does not return).  Page size 4096, a backend whose
every registration succeeds, the empty cache of capacity 128 and the request
`add(addr = 0, size = 4096)`: after any number `fuel` of iterations of the
slot-scan loop `nccl_ofi_mr_cache_add_entry` has not returned; by then it
has invoked the backend register `fuel` times and the cache holds `fuel`
entries. -/
theorem C1_miss_never_returns (fuel : Nat) :
    ∃ s, nccl_ofi_mr_cache_add_entry (demoEnv (fun _ => false) 0) fuel (emptyCache 128) []
        0 4096 0 none = Outcome.running fuel s ∧
      s.cache.used = fuel ∧ regCount s.trace = fuel := by
  obtain ⟨s, h1, h2, h3⟩ :=
    demo_loop_running 0 0 4096 0 fuel ⟨emptyCache 128, [], none, 0⟩
  refine ⟨s, ?_, ?_, ?_⟩
  · unfold nccl_ofi_mr_cache_add_entry
    have h0 : (emptyCache 128).used = 0 := rfl
    simp only [h0, Nat.zero_add] at h1
    exact h1
  · have h0 : (emptyCache 128).used = 0 := rfl
    simp only [h0, Nat.zero_add] at h2
    exact h2
  · have h0 : regCount ([] : List Event) = 0 := rfl
    simp only [h0, Nat.zero_add] at h3
    exact h3

/-! ## Hits -/

theorem page_addr_le (env : Env) (data : Nat) : page_addr env data ≤ data % WORD := by
  unfold page_addr; exact Nat.and_le_left

theorem page_count_pos (env : Env) (data : Nat) (size : Int) (hps : 0 < page_size env)
    (hsize : 0 < size) (hfit : (data : Int) + size + page_size env ≤ (WORD : Int)) :
    0 < page_count env data size ∧
    page_addr env data + page_count env data size * page_size env < WORD := by
  have hd : data < WORD := by
    have : (data : Int) < (WORD : Int) := by omega
    exact_mod_cast this
  have hale := page_addr_le env data
  rw [Nat.mod_eq_of_lt hd] at hale
  unfold page_count
  rw [Nat.mod_eq_of_lt hd]
  generalize page_addr env data = a at *
  generalize page_size env = ps at *
  set N : Int := (data : Int) + size - a + (ps : Int) - 1 with hN
  have hN0 : 0 ≤ N := by omega
  have hNW : N < (WORD : Int) := by omega
  rw [Int.emod_eq_of_lt hN0 hNW]
  have hle : ps ≤ N.toNat := by omega
  have h1 : 0 < N.toNat / ps := Nat.div_pos hle hps
  have h2 : N.toNat / ps * ps ≤ N.toNat := Nat.div_mul_le_self _ _
  refine ⟨h1, ?_⟩
  have h3 : ((a + N.toNat : Nat) : Int) < (WORD : Int) := by
    push_cast; rw [Int.toNat_of_nonneg hN0]; omega
  have h4 : a + N.toNat < WORD := by exact_mod_cast h3
  omega

theorem hit_of_nested (env : Env) (addr pages : Nat) (e : nccl_ofi_reg_entry)
    (hps : 0 < page_size env) (h1 : e.addr ≤ addr)
    (h2 : addr + pages * page_size env ≤ e.addr + e.pages * page_size env)
    (h3 : addr + pages * page_size env < WORD) :
    hit_test env addr pages e := by
  unfold hit_test
  refine ⟨h1, ?_⟩
  have hq : (addr - e.addr) / page_size env + pages ≤ e.pages := by
    rw [← Nat.add_mul_div_right _ _ hps]
    have : addr - e.addr + pages * page_size env ≤ e.pages * page_size env := by omega
    calc (addr - e.addr + pages * page_size env) / page_size env
        ≤ (e.pages * page_size env) / page_size env := Nat.div_le_div_right this
      _ = e.pages := Nat.mul_div_cancel _ hps
  have hlt : (addr - e.addr) / page_size env + pages < WORD := by
    have : (addr - e.addr) / page_size env ≤ addr := le_trans (Nat.div_le_self _ _) (Nat.sub_le _ _)
    have : pages ≤ pages * page_size env := Nat.le_mul_of_pos_right _ hps
    omega
  rw [Nat.mod_eq_of_lt hlt]
  exact hq

theorem not_hit_of_before (env : Env) (addr pages : Nat) (e : nccl_ofi_reg_entry)
    (hps : 0 < page_size env) (h1 : e.addr + e.pages * page_size env ≤ addr)
    (h2 : 0 < pages) (h3 : addr + pages * page_size env < WORD) :
    ¬ hit_test env addr pages e := by
  unfold hit_test
  rintro ⟨_, h⟩
  have hlt : (addr - e.addr) / page_size env + pages < WORD := by
    have : (addr - e.addr) / page_size env ≤ addr := le_trans (Nat.div_le_self _ _) (Nat.sub_le _ _)
    have : pages ≤ pages * page_size env := Nat.le_mul_of_pos_right _ hps
    omega
  rw [Nat.mod_eq_of_lt hlt] at h
  have : e.pages ≤ (addr - e.addr) / page_size env := by
    rw [Nat.le_div_iff_mul_le hps]; omega
  omega

/-- An iteration that is neither a miss nor a hit changes nothing. -/
theorem add_entry_body_pass (env : Env) (data : Nat) (size type : Int) (slot : Nat)
    (s : AddState) (h1 : slot ≠ s.cache.used)
    (h2 : ¬ page_addr env data < (s.cache.slots slot).entry.addr)
    (h3 : ¬ hit_test env (page_addr env data) (page_count env data size)
      (s.cache.slots slot).entry) :
    add_entry_body env data size type slot s = LoopStep.next s := by
  unfold add_entry_body
  simp only [h1, h2, h3, or_self, if_false]

/-- An iteration that hits: `goto out` with the reference count of the slot
raised by one and the entry's handle stored in `*handle`. -/
theorem add_entry_body_hit (env : Env) (data : Nat) (size type : Int) (slot : Nat)
    (s : AddState) (h1 : slot ≠ s.cache.used)
    (h2 : ¬ page_addr env data < (s.cache.slots slot).entry.addr)
    (h3 : hit_test env (page_addr env data) (page_count env data size)
      (s.cache.slots slot).entry) :
    add_entry_body env data size type slot s =
      LoopStep.out { s with cache := addRef s.cache slot 1
                            handle := some (s.cache.slots slot).entry.handle } := by
  unfold add_entry_body
  simp only [h1, h2, h3, or_self, if_false, if_true]
  rfl

/-- The loop walks over slots that neither miss nor hit and returns at the
first slot that hits. -/
theorem add_entry_loop_hit (env : Env) (data : Nat) (size type : Int) (i : Nat)
    (s : AddState) (hi : i < s.cache.used)
    (hpass : ∀ j, j < i → ¬ page_addr env data < (s.cache.slots j).entry.addr ∧
      ¬ hit_test env (page_addr env data) (page_count env data size)
        (s.cache.slots j).entry)
    (h2 : ¬ page_addr env data < (s.cache.slots i).entry.addr)
    (h3 : hit_test env (page_addr env data) (page_count env data size)
      (s.cache.slots i).entry) :
    ∀ (n slot fuel : Nat), slot + n = i → n < fuel →
      add_entry_loop env data size type fuel slot s =
        Outcome.returned { s with cache := addRef s.cache i 1
                                  handle := some (s.cache.slots i).entry.handle } := by
  intro n
  induction n with
  | zero =>
    intro slot fuel hs hf
    obtain ⟨f, rfl⟩ : ∃ f, fuel = f + 1 := ⟨fuel - 1, by omega⟩
    have hsl : slot = i := by omega
    subst hsl
    simp only [add_entry_loop, add_entry_body_hit env data size type slot s (by omega) h2 h3]
  | succ n ih =>
    intro slot fuel hs hf
    obtain ⟨f, rfl⟩ : ∃ f, fuel = f + 1 := ⟨fuel - 1, by omega⟩
    have hp := hpass slot (by omega)
    simp only [add_entry_loop,
      add_entry_body_pass env data size type slot s (by omega) hp.1 hp.2]
    exact ih (slot + 1) f (by omega) (by omega)
theorem live_pairwise_iff (c : nccl_ofi_mr_cache) (R : nccl_ofi_reg_entry → nccl_ofi_reg_entry → Prop) :
    (live c).Pairwise R ↔
      ∀ i j, i < j → j < c.used → R (c.slots i).entry (c.slots j).entry := by
  unfold live
  rw [List.pairwise_iff_getElem]
  constructor
  · intro h i j hij hj
    have := h i j (by simp; omega) (by simp; omega) hij
    simpa using this
  · intro h i j hi hj hij
    simp at hi hj
    simpa using h i j hij hj

theorem addRef_addRef (c : nccl_ofi_mr_cache) (i : Nat) (a b : Int) :
    addRef (addRef c i a) i b = addRef c i (a + b) := by
  unfold addRef setSlot
  simp only [if_true, nccl_ofi_mr_cache.mk.injEq, and_true, true_and]
  funext j
  by_cases h : j = i
  · simp [h, add_assoc]
  · simp [h]

theorem addRef_zero (c : nccl_ofi_mr_cache) (i : Nat) : addRef c i 0 = c := by
  unfold addRef setSlot
  cases c with
  | mk slots size used fin =>
    simp only [add_zero, nccl_ofi_mr_cache.mk.injEq, and_true, true_and]
    funext j
    by_cases h : j = i
    · simp [h]
    · simp [h]

/-- A request with at least one byte whose page range lies within the page
range of the live entry in slot `i`, in a cache whose earlier entries start
no later than that entry and do not overlap it, returns `0` at that slot. -/
theorem add_entry_nested_hit (env : Env) (c : nccl_ofi_mr_cache) (tr : List Event) (i : Nat)
    (r : Request) (fuel : Nat) (h0 : Option Nat)
    (hps : 0 < page_size env) (hi : i < c.used)
    (hsorted : ∀ j, j < i → (c.slots j).entry.addr ≤ (c.slots i).entry.addr)
    (hdisj : ∀ j, j < i → ¬ overlap (page_size env) (c.slots j).entry (c.slots i).entry)
    (hsize : 0 < r.size) (hfit : (r.data : Int) + r.size + page_size env ≤ (WORD : Int))
    (hlo : (c.slots i).entry.addr ≤ page_addr env r.data)
    (hhi : page_addr env r.data + page_count env r.data r.size * page_size env
      ≤ (c.slots i).entry.addr + (c.slots i).entry.pages * page_size env)
    (hfuel : c.used ≤ fuel) :
    nccl_ofi_mr_cache_add_entry env fuel c tr r.data r.size r.type h0 =
      Outcome.returned ⟨addRef c i 1, tr, some (c.slots i).entry.handle, 0⟩ := by
  obtain ⟨hp1, hp2⟩ := page_count_pos env r.data r.size hps hsize hfit
  unfold nccl_ofi_mr_cache_add_entry
  have hmul : 0 < page_count env r.data r.size * page_size env := Nat.mul_pos hp1 hps
  refine add_entry_loop_hit env r.data r.size r.type i ⟨c, tr, h0, 0⟩ hi ?_ (by simpa using hlo)
    (hit_of_nested env _ _ _ hps hlo hhi hp2) i 0 fuel (by omega) (by omega)
  intro j hj
  have hs := hsorted j hj
  have hd := hdisj j hj
  unfold overlap page_range_overlap at hd
  have hbefore : (c.slots j).entry.addr + (c.slots j).entry.pages * page_size env
      ≤ page_addr env r.data := by
    simp only [Nat.lt_min, Nat.max_lt, not_and_or, not_lt] at hd
    omega
  exact ⟨by simp only [not_lt]; omega, not_hit_of_before env _ _ _ hps hbefore hp1 hp2⟩
theorem addRef_slots_ne (c : nccl_ofi_mr_cache) (i j : Nat) (n : Int) (h : j ≠ i) :
    (addRef c i n).slots j = c.slots j := by
  simp [addRef, setSlot, h]

theorem addRef_slots_self (c : nccl_ofi_mr_cache) (i : Nat) (n : Int) :
    (addRef c i n).slots i =
      ⟨(c.slots i).ptr, { (c.slots i).entry with refcnt := (c.slots i).entry.refcnt + n }⟩ := by
  simp [addRef, setSlot]

theorem add_entries_nested_hit (env : Env) (i : Nat) (hps : 0 < page_size env)
    (reqs : List Request) :
    ∀ (c : nccl_ofi_mr_cache) (tr : List Event) (fuel : Nat), i < c.used →
      (∀ j, j < i → (c.slots j).entry.addr ≤ (c.slots i).entry.addr) →
      (∀ j, j < i → ¬ overlap (page_size env) (c.slots j).entry (c.slots i).entry) →
      (∀ r ∈ reqs, 0 < r.size ∧ (r.data : Int) + r.size + page_size env ≤ (WORD : Int) ∧
        (c.slots i).entry.addr ≤ page_addr env r.data ∧
        page_addr env r.data + page_count env r.data r.size * page_size env
          ≤ (c.slots i).entry.addr + (c.slots i).entry.pages * page_size env) →
      c.used ≤ fuel →
      run_calls env fuel (reqs.map Call.add) c tr =
        some (reqs.map (fun _ => ⟨0, some (c.slots i).entry.handle⟩),
          addRef c i reqs.length, tr) := by
  induction reqs with
  | nil =>
    intro c tr fuel _ _ _ _ _
    simp [run_calls, addRef_zero]
  | cons r rs ih =>
    intro c tr fuel hi hsorted hdisj hreqs hfuel
    obtain ⟨hsize, hfit, hlo, hhi⟩ := hreqs r (List.mem_cons_self _ _)
    have hcall := add_entry_nested_hit env c tr i r fuel none hps hi hsorted hdisj hsize hfit
      hlo hhi hfuel
    have hself := addRef_slots_self c i 1
    have hrec := ih (addRef c i 1) tr fuel hi
      (by
        intro j hj
        rw [addRef_slots_ne c i j 1 (by omega), hself]
        exact hsorted j hj)
      (by
        intro j hj
        rw [addRef_slots_ne c i j 1 (by omega), hself]
        exact hdisj j hj)
      (by
        intro q hq
        rw [hself]
        exact hreqs q (List.mem_cons_of_mem _ hq))
      hfuel
    simp only [List.map_cons, run_calls, hcall, hrec, addRef_addRef, hself, List.length_cons]
    have hlen : (1 : Int) + (rs.length : Int) = ((rs.length + 1 : Nat) : Int) := by
      push_cast; omega
    rw [hlen]

/-- C2 (dedup).  In a cache whose live entries are sorted by `addr` and
pairwise non-overlapping, let `E` be the live entry in slot `i`.  For every
finite sequence of requests with `size > 0` (and `data + size + page_size`
within the word) whose page-rounded ranges lie within `E`'s page range, the
calls to `nccl_ofi_mr_cache_add_entry` all return (within `used` loop
iterations): every call returns `0` and stores `E`'s handle; the history of
external calls is unchanged, so the backend is never invoked; and the cache
afterwards is the cache before with `E`'s `refcnt` increased by the number
of calls and nothing else changed. -/
theorem C2_dedup (env : Env) (c : nccl_ofi_mr_cache) (tr : List Event) (i : Nat)
    (reqs : List Request) (fuel : Nat)
    (hps : 0 < page_size env)
    (hsorted : (live c).Pairwise (fun a b => a.addr ≤ b.addr))
    (hdisj : (live c).Pairwise (fun a b => ¬ overlap (page_size env) a b))
    (hi : i < c.used)
    (hreqs : ∀ r ∈ reqs, 0 < r.size ∧
      (r.data : Int) + r.size + page_size env ≤ (WORD : Int) ∧
      (c.slots i).entry.addr ≤ page_addr env r.data ∧
      page_addr env r.data + page_count env r.data r.size * page_size env
        ≤ (c.slots i).entry.addr + (c.slots i).entry.pages * page_size env)
    (hfuel : c.used ≤ fuel) :
    run_calls env fuel (reqs.map Call.add) c tr =
      some (reqs.map (fun _ => ⟨0, some (c.slots i).entry.handle⟩),
        addRef c i reqs.length, tr) := by
  rw [live_pairwise_iff] at hsorted hdisj
  exact add_entries_nested_hit env i hps reqs c tr fuel hi
    (fun j hj => hsorted j i hj hi) (fun j hj => hdisj j i hj hi) hreqs hfuel
/-- Witness for C2: page size 4096, the entry `[4096, 12288)` with handle
`H1 = 7000` and `refcnt = 1`, and the request `add(addr = 5000, size = 100)`
under a backend that would fail every registration: the call returns `0`
and `H1`, the history stays empty and the reference count becomes 2. -/
theorem C2_dedup_witness :
    run_calls (demoEnv (fun _ => true) 0) 1 [Call.add ⟨5000, 100, 0⟩] (cacheH1 1) [] =
      some ([⟨0, some 7000⟩], addRef (cacheH1 1) 0 1, []) ∧
    ((addRef (cacheH1 1) 0 1).slots 0).entry.refcnt = 2 :=
  ⟨C2_dedup (demoEnv (fun _ => true) 0) (cacheH1 1) [] 0 [⟨5000, 100, 0⟩] 1 (by decide)
    (by decide) (by decide) (by decide) (by decide) (by decide), by decide⟩
/-! ## A miss is never followed by a return with a non-negative status -/

/-- An iteration at a slot where a miss is pending either leaves the loop
with a negative status (the registration failed) or goes on to the next
slot, where a miss is pending again. -/
theorem add_entry_body_miss_step (env : Env) (data : Nat) (size type : Int) (slot : Nat)
    (s : AddState) (hm : miss_pending env data slot s) :
    (∃ s1, add_entry_body env data size type slot s = LoopStep.out s1 ∧ s1.ret < 0) ∨
    (∃ s1, add_entry_body env data size type slot s = LoopStep.next s1 ∧
      miss_pending env data (slot + 1) s1) := by
  have hcond : slot = s.cache.used ∨ page_addr env data < (s.cache.slots slot).entry.addr := by
    rcases hm with h | ⟨_, _, h⟩
    · exact Or.inl h
    · exact Or.inr h
  have hgu : (if s.cache.used = s.cache.size then nccl_ofi_mr_cache_grow env s.trace s.cache
      else (0, s.cache, s.trace)).2.1.used = s.cache.used := by
    split
    · exact grow_used _ _ _
    · rfl
  have hgs : s.cache.used ≤ s.cache.size → slot < s.cache.used →
      slot < (if s.cache.used = s.cache.size then nccl_ofi_mr_cache_grow env s.trace s.cache
        else (0, s.cache, s.trace)).2.1.size ∧
      s.cache.used + 1 ≤ (if s.cache.used = s.cache.size
        then nccl_ofi_mr_cache_grow env s.trace s.cache
        else (0, s.cache, s.trace)).2.1.size ∧
      (if s.cache.used = s.cache.size then nccl_ofi_mr_cache_grow env s.trace s.cache
        else (0, s.cache, s.trace)).2.1.slots slot = s.cache.slots slot := by
    intro h1 h2
    split
    · rw [grow_size, grow_slots env s.trace s.cache slot (by omega)]
      exact ⟨by omega, by omega, rfl⟩
    · exact ⟨by dsimp only; omega, by dsimp only; omega, rfl⟩
  unfold add_entry_body
  simp only [hcond, if_true]
  generalize (if s.cache.used = s.cache.size then nccl_ofi_mr_cache_grow env s.trace s.cache
      else (0, s.cache, s.trace)) = g at hgu hgs ⊢
  by_cases hneg : (nccl_ofi_mr_reg_comm env (g.2.2 ++ [Event.calloc (env.calloc g.2.2)])
      data size type 0).1 < 0
  · left
    simp only [hneg, if_true]
    exact ⟨_, rfl, hneg⟩
  · right
    simp only [hneg, if_false]
    refine ⟨_, rfl, ?_⟩
    unfold miss_pending
    rcases hm with h | ⟨h1, h2, h3⟩
    · left
      dsimp only
      omega
    · right
      obtain ⟨h4, h5, h6⟩ := hgs h2 h1
      have h7 : slot + 1 ≠ slot := by omega
      have h8 : slot + 1 ≤ slot + 1 ∧ slot + 1 < slot + 1 + (g.2.1.size - slot) := by omega
      have h9 : slot + (slot + 1 - (slot + 1)) = slot := by omega
      simp only [setSlot, memmove, h7, h8, h9, if_false, if_true, and_self, h6]
      exact ⟨by omega, by omega, h3⟩

/-- From a slot where a miss is pending the loop never returns a
non-negative status: after any number of iterations it is still running or
has returned the negative status of a failed registration. -/
theorem add_entry_loop_miss_forever (env : Env) (data : Nat) (size type : Int) :
    ∀ (fuel slot : Nat) (s : AddState), miss_pending env data slot s →
      (∃ s1, add_entry_loop env data size type fuel slot s = Outcome.returned s1 ∧ s1.ret < 0) ∨
      (∃ k s1, add_entry_loop env data size type fuel slot s = Outcome.running k s1) := by
  intro fuel
  induction fuel with
  | zero => intro slot s _; right; exact ⟨slot, s, rfl⟩
  | succ n ih =>
    intro slot s hm
    rcases add_entry_body_miss_step env data size type slot s hm with
      ⟨s1, h1, h2⟩ | ⟨s1, h1, h2⟩
    · left
      exact ⟨s1, by simp only [add_entry_loop, h1], h2⟩
    · simp only [add_entry_loop, h1]
      exact ih (slot + 1) s1 h2

/-- Whenever `nccl_ofi_mr_cache_add_entry` on a cache with `used <= size`
returns a non-negative status, it has made no external call at all: it
returned at a hit.  A call that takes the miss branch can only return the
negative status of a failed registration. -/
theorem add_entry_loop_nonneg_return (env : Env) (data : Nat) (size type : Int) :
    ∀ (fuel slot : Nat) (s s1 : AddState), slot ≤ s.cache.used →
      s.cache.used ≤ s.cache.size → s.ret = 0 →
      add_entry_loop env data size type fuel slot s = Outcome.returned s1 →
      0 ≤ s1.ret → s1.trace = s.trace ∧ s1.ret = 0 ∧ s1.cache.used = s.cache.used := by
  intro fuel
  induction fuel with
  | zero => intro slot s s1 _ _ _ h; simp [add_entry_loop] at h
  | succ n ih =>
    intro slot s s1 hslot hcap hret h hnn
    by_cases hcond : slot = s.cache.used ∨
        page_addr env data < (s.cache.slots slot).entry.addr
    · have hm : miss_pending env data slot s := by
        unfold miss_pending
        rcases hcond with h1 | h1
        · exact Or.inl h1
        · by_cases h2 : slot = s.cache.used
          · exact Or.inl h2
          · exact Or.inr ⟨by omega, hcap, h1⟩
      exfalso
      rcases add_entry_loop_miss_forever env data size type (n + 1) slot s hm with
        ⟨s2, h1, h2⟩ | ⟨k, s2, h1⟩
      · rw [h1] at h
        injection h with h3
        rw [h3] at h2
        omega
      · rw [h1] at h
        cases h
    · have h1 : slot ≠ s.cache.used := fun e => hcond (Or.inl e)
      have h2 : ¬ page_addr env data < (s.cache.slots slot).entry.addr :=
        fun e => hcond (Or.inr e)
      by_cases hh : hit_test env (page_addr env data) (page_count env data size)
          (s.cache.slots slot).entry
      · simp only [add_entry_loop, add_entry_body_hit env data size type slot s h1 h2 hh] at h
        injection h with h3
        rw [← h3]
        exact ⟨rfl, hret, rfl⟩
      · simp only [add_entry_loop, add_entry_body_pass env data size type slot s h1 h2 hh] at h
        exact ih (slot + 1) s s1 (by omega) hcap hret h hnn

/-- Whenever `nccl_ofi_mr_cache_add_entry` on a cache with `used <= size`
returns a non-negative status, that status is `0`, `used` is unchanged and
no external call was made: no call that registers ever returns success. -/
theorem add_entry_nonneg_return_no_call (env : Env) (fuel : Nat) (c : nccl_ofi_mr_cache)
    (tr : List Event) (data : Nat) (size type : Int) (h0 : Option Nat) (s1 : AddState)
    (hcap : c.used ≤ c.size)
    (h : nccl_ofi_mr_cache_add_entry env fuel c tr data size type h0 = Outcome.returned s1)
    (hnn : 0 ≤ s1.ret) :
    s1.trace = tr ∧ s1.ret = 0 ∧ s1.cache.used = c.used :=
  add_entry_loop_nonneg_return env data size type fuel 0 ⟨c, tr, h0, 0⟩ s1 (Nat.zero_le _)
    hcap rfl h hnn

/-! ## Where the code departs from the specification -/

/-- C3 (the backend is given the raw buffer, not the page range).  Page size
4096, empty cache, request `add(addr = 5000, size = 100)`, with a backend
whose second registration fails so that the call returns.  The entry
recorded is the page range `[4096, 8192)` (`addr = 4096`, one page), but
both backend calls were made with the raw `(5000, 100)`, none with
`(4096, 4096)`.  A later `add(addr = 4096, size = 4096)` hits that entry and
is handed the same handle `7000` without any backend call. -/
theorem C3_backend_gets_raw_range :
    ∃ s, nccl_ofi_mr_cache_add_entry (demoEnv (fun n => n == 1) 0) 2 (emptyCache 128) []
        5000 100 0 none = Outcome.returned s ∧
      live s.cache = [⟨4096, 1, 1, 7000⟩] ∧
      s.trace = [Event.calloc 1000, Event.regMr 5000 100 0,
                 Event.calloc 1032, Event.regMr 5000 100 0] ∧
      (∃ s2, nccl_ofi_mr_cache_add_entry (demoEnv (fun n => n == 1) 0) 1 s.cache s.trace
          4096 4096 0 none = Outcome.returned s2 ∧
        s2.ret = 0 ∧ s2.handle = some 7000 ∧ s2.trace = s.trace) :=
  ⟨_, rfl, by decide, by decide, _, rfl, by decide, by decide, by decide⟩

/-- C5 (a failed registration leaves the entries shifted).  Page size 4096,
a cache whose only live entry is `[4096, 12288)`, a backend that fails every
registration, and the request `add(addr = 0, size = 4096)`, which misses at
slot 0.  The call returns `-1` with `used` still 1, but the live sequence is
no longer the old entry: slot 0 holds the new all-zero entry and the old
entry has been shifted to slot 1, outside the live range. -/
theorem C5_failed_registration_shifts_entries :
    ∃ s, nccl_ofi_mr_cache_add_entry (demoEnv (fun _ => true) 0) 1 (cacheH1 1) histH1
        0 4096 0 none = Outcome.returned s ∧
      s.ret = -1 ∧ s.cache.used = 1 ∧ (cacheH1 1).used = 1 ∧
      liveSlots (cacheH1 1) = [⟨1000, ⟨4096, 2, 1, 7000⟩⟩] ∧
      liveSlots s.cache = [⟨1032, ⟨0, 0, 0, 0⟩⟩] ∧
      s.cache.slots 1 = ⟨1000, ⟨4096, 2, 1, 7000⟩⟩ :=
  ⟨_, rfl, by decide, by decide, by decide, by decide, by decide, by decide⟩

/-- C6 (lookup matches the entry pointer, not the stored handle).  The cache
holds one live entry, stored at pointer `1000`, whose handle field is
`7000`.  Looking up the handle `7000` returns `-1` although slot 0 stores
it, and `nccl_ofi_mr_cache_del_entry` on that handle returns `-ENOENT`;
looking up `1000`, which no entry stores as its handle, returns slot 0. -/
theorem C6_lookup_compares_entry_pointer :
    ((cacheH1 1).slots 0).entry.handle = 7000 ∧
    nccl_ofi_mr_cache_lookup (cacheH1 1) 7000 = -1 ∧
    (nccl_ofi_mr_cache_del_entry (demoEnv (fun _ => false) 0) (cacheH1 1) histH1 7000).1
      = -ENOENT ∧
    nccl_ofi_mr_cache_lookup (cacheH1 1) 1000 = 0 := by
  refine ⟨by decide, by decide, by decide, by decide⟩

/-- C7 (the refcount scenario on the code).  Page size 4096 and a backend
whose registrations all succeed.  The first call of the scenario,
`add(addr = 4096, size = 8192)` on the empty cache, has not returned after
any number of loop iterations.  And on the cache the scenario is meant to
reach after its two adds (the entry `[4096, 12288)` with handle `H1 = 7000`
and `refcnt = 2`), `remove(H1)` returns `-ENOENT`, leaves the reference
count at 2 and makes no external call. -/
theorem C7_scenario_add_diverges_del_rejects :
    (∀ fuel, ∃ s, nccl_ofi_mr_cache_add_entry (demoEnv (fun _ => false) 0) fuel
        (emptyCache 128) [] 4096 8192 0 none = Outcome.running fuel s) ∧
    (nccl_ofi_mr_cache_del_entry (demoEnv (fun _ => false) 0) (cacheH1 2) histH1 7000).1
      = -ENOENT ∧
    liveSlots (nccl_ofi_mr_cache_del_entry (demoEnv (fun _ => false) 0) (cacheH1 2) histH1
      7000).2.1 = [⟨1000, ⟨4096, 2, 2, 7000⟩⟩] ∧
    (nccl_ofi_mr_cache_del_entry (demoEnv (fun _ => false) 0) (cacheH1 2) histH1 7000).2.2
      = histH1 := by
  refine ⟨?_, by decide, by decide, by decide⟩
  intro fuel
  obtain ⟨s, h1, _, _⟩ :=
    demo_loop_running 0 4096 8192 0 fuel ⟨emptyCache 128, [], none, 0⟩
  refine ⟨s, ?_⟩
  unfold nccl_ofi_mr_cache_add_entry
  have h0 : (emptyCache 128).used = 0 := rfl
  simp only [h0, Nat.zero_add] at h1
  exact h1

/-- C8 (a handle that no entry stores is accepted).  The cache holds one
live entry whose handle field is `7000`; the value `1000` is stored by no
entry as its handle (it is the pointer to the entry).  Calling
`nccl_ofi_mr_cache_del_entry` with the handle `1000` returns `0`, invokes
the backend deregister on `7000`, frees the entry and empties the cache. -/
theorem C8_unknown_handle_releases_entry :
    (∀ e ∈ live (cacheH1 1), e.handle ≠ 1000) ∧
    (nccl_ofi_mr_cache_del_entry (demoEnv (fun _ => false) 0) (cacheH1 1) histH1 1000).1
      = 0 ∧
    (nccl_ofi_mr_cache_del_entry (demoEnv (fun _ => false) 0) (cacheH1 1) histH1 1000).2.2
      = histH1 ++ [Event.deregMr 7000, Event.free 1000] ∧
    (nccl_ofi_mr_cache_del_entry (demoEnv (fun _ => false) 0) (cacheH1 1) histH1
      1000).2.1.used = 0 := by
  refine ⟨by decide, by decide, by decide, by decide⟩

/-- C9 (the deregistration status is dropped).  For every environment, cache
and handle the status of `nccl_ofi_mr_cache_del_entry` is `-ENOENT` when the
lookup fails and `0` otherwise, whatever the backend deregister returns.  In
particular, with a deregister that returns `-5` and a cache whose only entry
has `refcnt = 1`, releasing its handle invokes the backend deregister,
removes the entry and returns `0`. -/
theorem C9_dereg_status_dropped :
    (∀ (env : Env) (c : nccl_ofi_mr_cache) (tr : List Event) (h : Nat),
      (nccl_ofi_mr_cache_del_entry env c tr h).1 =
        if nccl_ofi_mr_cache_lookup c h < 0 then -ENOENT else 0) ∧
    nccl_ofi_mr_dereg_comm (demoEnv (fun _ => false) (-5)) histH1 1000
      = (-5, histH1 ++ [Event.deregMr 1000]) ∧
    (nccl_ofi_mr_cache_del_entry (demoEnv (fun _ => false) (-5)) cacheSame histH1 1000).1
      = 0 ∧
    (nccl_ofi_mr_cache_del_entry (demoEnv (fun _ => false) (-5)) cacheSame histH1 1000).2.2
      = histH1 ++ [Event.deregMr 1000, Event.free 1000] ∧
    (nccl_ofi_mr_cache_del_entry (demoEnv (fun _ => false) (-5)) cacheSame histH1
      1000).2.1.used = 0 := by
  refine ⟨?_, by decide, by decide, by decide, by decide⟩
  intro env c tr h
  unfold nccl_ofi_mr_cache_del_entry
  dsimp only
  split
  · rfl
  · split
    · rfl
    · split <;> rfl
/-! ## Insertion and removal keep the order -/

theorem live_forall_iff (c : nccl_ofi_mr_cache) (P : nccl_ofi_reg_entry → Prop) :
    (∀ e ∈ live c, P e) ↔ ∀ a, a < c.used → P (c.slots a).entry := by
  unfold live
  constructor
  · intro h a ha
    exact h _ (List.mem_map.mpr ⟨a, List.mem_range.mpr ha, rfl⟩)
  · intro h e he
    obtain ⟨a, ha, rfl⟩ := List.mem_map.mp he
    exact h a (List.mem_range.mp ha)

/-- A miss whose registration succeeds: the loop goes on, `used` has grown
by one, the cells below `slot` are as before, the cell at `slot` is the new
entry with `refcnt = 1`, and the cells above hold the entries that were one
position lower. -/
theorem add_entry_body_miss_ok (env : Env) (data : Nat) (size type : Int) (slot : Nat)
    (s : AddState)
    (hmiss : slot = s.cache.used ∨ page_addr env data < (s.cache.slots slot).entry.addr)
    (hok : 0 ≤ miss_reg_status env s.trace s.cache data size type)
    (hslot : slot ≤ s.cache.used) (hcap : s.cache.used ≤ s.cache.size) :
    ∃ s1, add_entry_body env data size type slot s = LoopStep.next s1 ∧
      s1.cache.used = s.cache.used + 1 ∧
      (s1.cache.slots slot).entry.addr = page_addr env data ∧
      (s1.cache.slots slot).entry.pages = page_count env data size ∧
      (s1.cache.slots slot).entry.refcnt = 1 ∧
      (∀ a, a < slot → s1.cache.slots a = s.cache.slots a) ∧
      (∀ a, slot < a → a ≤ s.cache.used → s1.cache.slots a = s.cache.slots (a - 1)) := by
  unfold miss_reg_status miss_reg_trace at hok
  unfold add_entry_body
  simp only [hmiss, if_true]
  rw [if_neg (not_lt.mpr hok)]
  refine ⟨_, rfl, ?_, ?_, ?_, ?_, ?_, ?_⟩
  · by_cases hg : s.cache.used = s.cache.size
    · simp only [hg, if_true, grow_used]
    · simp only [hg, if_false]
  · simp [setSlot]
  · simp [setSlot]
  · simp [setSlot]
  · intro a h1
    have h2 : a ≠ slot := by omega
    by_cases hg : s.cache.used = s.cache.size
    · have h3 : ¬ (slot + 1 ≤ a ∧ a < slot + 1 + (s.cache.size * 2 - slot)) := by omega
      simp only [hg, if_true, setSlot, memmove, grow_size, h2, h3, if_false]
      exact grow_slots env s.trace s.cache a (by omega)
    · have h3 : ¬ (slot + 1 ≤ a ∧ a < slot + 1 + (s.cache.size - slot)) := by omega
      simp only [hg, if_false, setSlot, memmove, h2, h3]
  · intro a h1 ha
    have h2 : a ≠ slot := by omega
    have h4 : slot + (a - (slot + 1)) = a - 1 := by omega
    by_cases hg : s.cache.used = s.cache.size
    · have h3 : slot + 1 ≤ a ∧ a < slot + 1 + (s.cache.size * 2 - slot) := by omega
      simp only [hg, if_true, setSlot, memmove, grow_size, h2, h3, if_false, and_self, h4]
      exact grow_slots env s.trace s.cache (a - 1) (by omega)
    · have h3 : slot + 1 ≤ a ∧ a < slot + 1 + (s.cache.size - slot) := by omega
      simp only [hg, if_false, setSlot, memmove, h2, h3, if_true, and_self, h4]

/-- A miss whose registration fails: the call leaves the loop with the
status of the registration; `used` and `*handle` are as before, and the cell
at `slot` holds the new entry, whose `addr`, `pages` and `refcnt` are still
zero. -/
theorem add_entry_body_miss_fail (env : Env) (data : Nat) (size type : Int) (slot : Nat)
    (s : AddState)
    (hmiss : slot = s.cache.used ∨ page_addr env data < (s.cache.slots slot).entry.addr)
    (hfail : miss_reg_status env s.trace s.cache data size type < 0) :
    ∃ s1, add_entry_body env data size type slot s = LoopStep.out s1 ∧
      s1.ret = miss_reg_status env s.trace s.cache data size type ∧
      s1.cache.used = s.cache.used ∧ s1.handle = s.handle ∧
      (s1.cache.slots slot).entry.addr = 0 ∧
      (s1.cache.slots slot).entry.pages = 0 ∧
      (s1.cache.slots slot).entry.refcnt = 0 := by
  unfold miss_reg_status miss_reg_trace at hfail ⊢
  unfold add_entry_body
  simp only [hmiss, if_true]
  rw [if_pos hfail]
  refine ⟨_, rfl, rfl, ?_, rfl, ?_, ?_, ?_⟩
  · by_cases hg : s.cache.used = s.cache.size
    · simp only [hg, if_true, grow_used]
    · simp only [hg, if_false]
  · simp [setSlot]
  · simp [setSlot]
  · simp [setSlot]

/-- Whatever the registration returns, the miss branch at `slot` stores the
freshly allocated entry in the cell at `slot`, leaves the cells below `slot`
as they were and moves the live cells from `slot` on one position up. -/
theorem add_entry_body_miss_cells (env : Env) (data : Nat) (size type : Int) (slot : Nat)
    (s : AddState)
    (hmiss : slot = s.cache.used ∨ page_addr env data < (s.cache.slots slot).entry.addr)
    (hslot : slot ≤ s.cache.used) (hcap : s.cache.used ≤ s.cache.size) :
    ∀ s1, (add_entry_body env data size type slot s = LoopStep.out s1 ∨
        add_entry_body env data size type slot s = LoopStep.next s1) →
      (s1.cache.slots slot).ptr = miss_calloc_ptr env s.trace s.cache ∧
      (∀ a, a < slot → s1.cache.slots a = s.cache.slots a) ∧
      (∀ a, slot < a → a ≤ s.cache.used → s1.cache.slots a = s.cache.slots (a - 1)) := by
  intro s1 h
  have hgs : slot <
        (if s.cache.used = s.cache.size then nccl_ofi_mr_cache_grow env s.trace s.cache
          else (0, s.cache, s.trace)).2.1.size ∨ slot = s.cache.used := by
    by_cases hsl : slot = s.cache.used
    · exact Or.inr hsl
    · left
      split
      · rw [grow_size]; omega
      · dsimp only; omega
  have hsz : s.cache.used ≤
        (if s.cache.used = s.cache.size then nccl_ofi_mr_cache_grow env s.trace s.cache
          else (0, s.cache, s.trace)).2.1.size := by
    split
    · rw [grow_size]; omega
    · exact hcap
  have hgl : ∀ a, a < s.cache.used →
      (if s.cache.used = s.cache.size then nccl_ofi_mr_cache_grow env s.trace s.cache
        else (0, s.cache, s.trace)).2.1.slots a = s.cache.slots a := by
    intro a ha
    split
    · exact grow_slots env s.trace s.cache a (by omega)
    · rfl
  unfold miss_calloc_ptr
  unfold add_entry_body at h
  simp only [hmiss, if_true] at h
  generalize (if s.cache.used = s.cache.size then nccl_ofi_mr_cache_grow env s.trace s.cache
      else (0, s.cache, s.trace)) = g at hgs hsz hgl h ⊢
  have key : ∀ v : Slot,
      (setSlot (memmove g.2.1.slots (slot + 1) slot (g.2.1.size - slot)) slot v slot).ptr
          = v.ptr ∧
      (∀ a, a < slot →
        setSlot (memmove g.2.1.slots (slot + 1) slot (g.2.1.size - slot)) slot v a
          = s.cache.slots a) ∧
      (∀ a, slot < a → a ≤ s.cache.used →
        setSlot (memmove g.2.1.slots (slot + 1) slot (g.2.1.size - slot)) slot v a
          = s.cache.slots (a - 1)) := by
    intro v
    refine ⟨by simp [setSlot], ?_, ?_⟩
    · intro a h1
      have h2 : a ≠ slot := by omega
      have h3 : ¬ (slot + 1 ≤ a ∧ a < slot + 1 + (g.2.1.size - slot)) := by omega
      simp only [setSlot, memmove, h2, h3, if_false]
      exact hgl a (by omega)
    · intro a h1 ha
      have h2 : a ≠ slot := by omega
      have h4 : slot + (a - (slot + 1)) = a - 1 := by omega
      have h3 : slot + 1 ≤ a ∧ a < slot + 1 + (g.2.1.size - slot) := by omega
      simp only [setSlot, memmove, h2, h3, if_false, if_true, and_self, h4]
      exact hgl (a - 1) (by omega)
  split at h
  · rcases h with h | h
    · injection h with h
      rw [← h]
      exact key _
    · cases h
  · rcases h with h | h
    · cases h
    · injection h with h
      rw [← h]
      exact key _

/-- Iterations that neither miss nor hit are skipped without any change. -/
theorem add_entry_loop_pass (env : Env) (data : Nat) (size type : Int) (s : AddState) :
    ∀ (n slot m : Nat),
      (∀ j, slot ≤ j → j < slot + n → j ≠ s.cache.used ∧
        ¬ page_addr env data < (s.cache.slots j).entry.addr ∧
        ¬ hit_test env (page_addr env data) (page_count env data size)
          (s.cache.slots j).entry) →
      add_entry_loop env data size type (n + m) slot s =
        add_entry_loop env data size type m (slot + n) s := by
  intro n
  induction n with
  | zero => intro slot m _; simp
  | succ n ih =>
    intro slot m h
    obtain ⟨h1, h2, h3⟩ := h slot (by omega) (by omega)
    have e : n + 1 + m = (n + m) + 1 := by omega
    rw [e]
    simp only [add_entry_loop, add_entry_body_pass env data size type slot s h1 h2 h3]
    rw [ih (slot + 1) m (fun j hj1 hj2 => h j (by omega) (by omega))]
    congr 1
    omega

/-- Where a miss inserts.  In a cache with `used <= size`, for a request that
no live entry hits, there is a slot `k <= used`, the first index whose entry
starts above the request's page-rounded base (or `used`), such that the scan
reaches slot `k` with nothing changed and the next iteration takes the miss
branch there.  That iteration stores the freshly allocated entry in cell `k`
with the cells below unchanged and the live cells from `k` on moved one
position up.  If the registration succeeds, the loop goes on with `used`
grown by one and the entry filled in with `refcnt = 1`; if it fails, the
call returns its status with `used` unchanged and the entry still zero. -/
theorem add_entry_first_insert (env : Env) (c : nccl_ofi_mr_cache) (tr : List Event)
    (data : Nat) (size type : Int) (h0 : Option Nat)
    (hcap : c.used ≤ c.size)
    (hmiss : ∀ e ∈ live c,
      ¬ hit_test env (page_addr env data) (page_count env data size) e) :
    ∃ k, k ≤ c.used ∧
      (k = c.used ∨ page_addr env data < (c.slots k).entry.addr) ∧
      (∀ j, j < k → (c.slots j).entry.addr ≤ page_addr env data) ∧
      nccl_ofi_mr_cache_add_entry env k c tr data size type h0
        = Outcome.running k ⟨c, tr, h0, 0⟩ ∧
      (0 ≤ miss_reg_status env tr c data size type →
        ∃ s, nccl_ofi_mr_cache_add_entry env (k + 1) c tr data size type h0
            = Outcome.running (k + 1) s ∧
          s.cache.used = c.used + 1 ∧
          (s.cache.slots k).entry.addr = page_addr env data ∧
          (s.cache.slots k).entry.pages = page_count env data size ∧
          (s.cache.slots k).entry.refcnt = 1 ∧
          (s.cache.slots k).ptr = miss_calloc_ptr env tr c ∧
          (∀ a, a < k → s.cache.slots a = c.slots a) ∧
          (∀ a, k < a → a ≤ c.used → s.cache.slots a = c.slots (a - 1))) ∧
      (miss_reg_status env tr c data size type < 0 →
        ∃ s, nccl_ofi_mr_cache_add_entry env (k + 1) c tr data size type h0
            = Outcome.returned s ∧
          s.ret = miss_reg_status env tr c data size type ∧
          s.cache.used = c.used ∧ s.handle = h0 ∧
          (s.cache.slots k).entry.addr = 0 ∧
          (s.cache.slots k).entry.pages = 0 ∧
          (s.cache.slots k).entry.refcnt = 0 ∧
          (s.cache.slots k).ptr = miss_calloc_ptr env tr c ∧
          (∀ a, a < k → s.cache.slots a = c.slots a) ∧
          (∀ a, k < a → a ≤ c.used → s.cache.slots a = c.slots (a - 1))) := by
  rw [live_forall_iff] at hmiss
  have hP : ∃ k, k = c.used ∨ page_addr env data < (c.slots k).entry.addr :=
    ⟨c.used, Or.inl rfl⟩
  have hk := Nat.find_spec hP
  have hmin : ∀ j, j < Nat.find hP →
      ¬ (j = c.used ∨ page_addr env data < (c.slots j).entry.addr) :=
    fun j hj => Nat.find_min hP hj
  have hkle : Nat.find hP ≤ c.used := Nat.find_min' hP (Or.inl rfl)
  generalize Nat.find hP = k at hk hmin hkle
  have hlow : ∀ j, j < k → (c.slots j).entry.addr ≤ page_addr env data := by
    intro j hj
    have := hmin j hj
    simp only [not_or, not_lt] at this
    exact this.2
  have hpass : ∀ j, 0 ≤ j → j < 0 + k → j ≠ c.used ∧
      ¬ page_addr env data < (c.slots j).entry.addr ∧
      ¬ hit_test env (page_addr env data) (page_count env data size) (c.slots j).entry := by
    intro j _ hj
    have h1 := hmin j (by omega)
    simp only [not_or] at h1
    exact ⟨h1.1, h1.2, hmiss j (by omega)⟩
  have hrun : nccl_ofi_mr_cache_add_entry env (k + 1) c tr data size type h0
      = (match add_entry_body env data size type k ⟨c, tr, h0, 0⟩ with
          | LoopStep.out s2 => Outcome.returned s2
          | LoopStep.next s2 => Outcome.running (k + 1) s2) := by
    unfold nccl_ofi_mr_cache_add_entry
    rw [add_entry_loop_pass env data size type ⟨c, tr, h0, 0⟩ k 0 1 hpass]
    simp only [Nat.zero_add, add_entry_loop]
  have hcells := add_entry_body_miss_cells env data size type k ⟨c, tr, h0, 0⟩ hk hkle hcap
  refine ⟨k, hkle, hk, hlow, ?_, ?_, ?_⟩
  · unfold nccl_ofi_mr_cache_add_entry
    have := add_entry_loop_pass env data size type ⟨c, tr, h0, 0⟩ k 0 0 hpass
    simp only [Nat.add_zero, Nat.zero_add] at this
    rw [this]
    rfl
  · intro hok
    obtain ⟨s1, hb, hused, haddr, hpages, href, _, _⟩ :=
      add_entry_body_miss_ok env data size type k ⟨c, tr, h0, 0⟩ hk hok hkle hcap
    obtain ⟨hp, hl, hh⟩ := hcells s1 (Or.inr hb)
    exact ⟨s1, by rw [hrun, hb], hused, haddr, hpages, href, hp, hl, hh⟩
  · intro hfail
    obtain ⟨s1, hb, hret, hused, hh0, haddr, hpages, href⟩ :=
      add_entry_body_miss_fail env data size type k ⟨c, tr, h0, 0⟩ hk hfail
    obtain ⟨hp, hl, hh⟩ := hcells s1 (Or.inl hb)
    exact ⟨s1, by rw [hrun, hb], hret, hused, hh0, haddr, hpages, href, hp, hl, hh⟩

/-- The first insertion of a miss.  In a cache with `used <= size` whose
live entries satisfy the order invariant and cover at least one page each,
a request with at least one byte whose page range overlaps no live entry,
and whose registration succeeds, is inserted at some slot `k <= used`; right
after that insertion the live entries again satisfy the order invariant and
cover at least one page each. -/
theorem add_entry_first_insert_ordered (env : Env) (c : nccl_ofi_mr_cache) (tr : List Event)
    (r : Request) (h0 : Option Nat)
    (hps : 0 < page_size env) (hcap : c.used ≤ c.size)
    (hord : ordered (page_size env) (live c)) (hpos : ∀ e ∈ live c, 0 < e.pages)
    (hsize : 0 < r.size) (hfit : (r.data : Int) + r.size + page_size env ≤ (WORD : Int))
    (hdis : ∀ e ∈ live c, ¬ page_range_overlap (page_size env) e.addr e.pages
      (page_addr env r.data) (page_count env r.data r.size))
    (hok : 0 ≤ miss_reg_status env tr c r.data r.size r.type) :
    ∃ k s, k ≤ c.used ∧
      nccl_ofi_mr_cache_add_entry env (k + 1) c tr r.data r.size r.type h0
        = Outcome.running (k + 1) s ∧
      s.cache.used = c.used + 1 ∧
      (s.cache.slots k).entry.addr = page_addr env r.data ∧
      (s.cache.slots k).entry.pages = page_count env r.data r.size ∧
      (s.cache.slots k).entry.refcnt = 1 ∧
      ordered (page_size env) (live s.cache) ∧ ∀ e ∈ live s.cache, 0 < e.pages := by
  obtain ⟨hp1, hp2⟩ := page_count_pos env r.data r.size hps hsize hfit
  have hmul : 0 < page_count env r.data r.size * page_size env := Nat.mul_pos hp1 hps
  unfold ordered at hord ⊢
  rw [live_pairwise_iff] at hord
  rw [live_forall_iff] at hpos hdis
  have hP : ∃ k, k = c.used ∨ page_addr env r.data < (c.slots k).entry.addr :=
    ⟨c.used, Or.inl rfl⟩
  have hk := Nat.find_spec hP
  have hmin : ∀ j, j < Nat.find hP →
      ¬ (j = c.used ∨ page_addr env r.data < (c.slots j).entry.addr) :=
    fun j hj => Nat.find_min hP hj
  have hkle : Nat.find hP ≤ c.used := Nat.find_min' hP (Or.inl rfl)
  generalize Nat.find hP = k at hk hmin hkle
  -- entries below `k` end at or before the request's base
  have hbelow : ∀ j, j < k → (c.slots j).entry.addr + (c.slots j).entry.pages * page_size env
        ≤ page_addr env r.data ∧ (c.slots j).entry.addr < page_addr env r.data := by
    intro j hj
    have h1 := hmin j hj
    have h2 := hdis j (by omega)
    have h3 := hpos j (by omega)
    have h4 : 0 < (c.slots j).entry.pages * page_size env := Nat.mul_pos h3 hps
    unfold page_range_overlap at h2
    simp only [Nat.lt_min, Nat.max_lt, not_and_or, not_lt, not_or] at h1 h2
    omega
  -- entries from `k` on start after the request's base and end of range
  have habove : ∀ j, k ≤ j → j < c.used →
      page_addr env r.data < (c.slots j).entry.addr := by
    intro j hj hju
    have h1 : page_addr env r.data < (c.slots k).entry.addr := by
      rcases hk with h | h
      · omega
      · exact h
    by_cases hjk : j = k
    · rw [hjk]; exact h1
    · have := (hord k j (by omega) hju).1
      omega
  obtain ⟨s1, hb, hused, haddr, hpages, href, hlow, hhigh⟩ :=
    add_entry_body_miss_ok env r.data r.size r.type k ⟨c, tr, h0, 0⟩ hk hok hkle hcap
  dsimp only at hused hlow hhigh
  refine ⟨k, s1, hkle, ?_, hused, haddr, hpages, href, ?_, ?_⟩
  · unfold nccl_ofi_mr_cache_add_entry
    rw [add_entry_loop_pass env r.data r.size r.type ⟨c, tr, h0, 0⟩ k 0 1]
    · simp only [Nat.zero_add, add_entry_loop, hb]
    · intro j _ hj
      have h1 := hmin j (by omega)
      have h2 := hbelow j (by omega)
      simp only [not_or] at h1
      exact ⟨h1.1, h1.2, not_hit_of_before env _ _ _ hps h2.1 hp1 hp2⟩
  · rw [live_pairwise_iff]
    intro a b hab hb2
    rw [hused] at hb2
    have hcell : ∀ x, x ≤ c.used → x ≠ k →
        s1.cache.slots x = c.slots (if x < k then x else x - 1) := by
      intro x hx hxk
      by_cases h : x < k
      · simp only [h, if_true]; exact hlow x h
      · simp only [h, if_false]; exact hhigh x (by omega) hx
    by_cases hak : a = k
    · -- the new entry against a later one
      have hbk : b ≠ k := by omega
      rw [hcell b (by omega) hbk]
      have hb3 : ¬ b < k := by omega
      simp only [hb3, if_false]
      have h1 := habove (b - 1) (by omega) (by omega)
      have h2 := hdis (b - 1) (by omega)
      rw [hak]
      unfold overlap
      rw [haddr, hpages]
      refine ⟨h1, ?_⟩
      unfold page_range_overlap at h2 ⊢
      simp only [Nat.lt_min, Nat.max_lt, not_and_or, not_lt] at h2 ⊢
      omega
    · by_cases hbk : b = k
      · -- an earlier entry against the new one
        have ha3 : a < k := by omega
        rw [hcell a (by omega) hak]
        simp only [ha3, if_true]
        have h1 := hbelow a ha3
        have h2 := hdis a (by omega)
        rw [hbk]
        unfold overlap
        rw [haddr, hpages]
        exact ⟨h1.2, h2⟩
      · rw [hcell a (by omega) hak, hcell b (by omega) hbk]
        apply hord
        · split <;> split <;> omega
        · split <;> omega
  · rw [live_forall_iff]
    intro a ha
    rw [hused] at ha
    by_cases hak : a = k
    · rw [hak, hpages]; exact hp1
    · by_cases h : a < k
      · rw [hlow a h]; exact hpos a (by omega)
      · rw [hhigh a (by omega) (by omega)]; exact hpos (a - 1) (by omega)
/-- What the lookup loop returns: `-1` when no cell in its range stores the
pointer `h`, and otherwise the first index in its range whose cell does. -/
theorem lookup_loop_spec (c : nccl_ofi_mr_cache) (h : Nat) :
    ∀ n i, (lookup_loop c h n i = -1 ∧ ∀ j, i ≤ j → j < i + n → (c.slots j).ptr ≠ h) ∨
      (∃ k, i ≤ k ∧ k < i + n ∧ lookup_loop c h n i = (k : Int) ∧ (c.slots k).ptr = h ∧
        ∀ j, i ≤ j → j < k → (c.slots j).ptr ≠ h) := by
  intro n
  induction n with
  | zero =>
    intro i
    left
    exact ⟨rfl, fun j h1 h2 => by omega⟩
  | succ n ih =>
    intro i
    by_cases hp : h = (c.slots i).ptr
    · right
      refine ⟨i, le_refl _, by omega, ?_, hp.symm, fun j h1 h2 => by omega⟩
      simp only [lookup_loop, hp, if_true]
    · rcases ih (i + 1) with ⟨h1, h2⟩ | ⟨k, h1, h2, h3, h4, h5⟩
      · left
        refine ⟨?_, ?_⟩
        · simp only [lookup_loop, hp, if_false]; exact h1
        · intro j hj1 hj2
          by_cases hji : j = i
          · rw [hji]; exact fun e => hp e.symm
          · exact h2 j (by omega) (by omega)
      · right
        refine ⟨k, by omega, by omega, ?_, h4, ?_⟩
        · simp only [lookup_loop, hp, if_false]; exact h3
        · intro j hj1 hj2
          by_cases hji : j = i
          · rw [hji]; exact fun e => hp e.symm
          · exact h5 j (by omega) hj2

/-- `nccl_ofi_mr_cache_lookup` returns `-1` when no live cell stores the
pointer `h`, and otherwise the first live index whose cell does. -/
theorem lookup_spec (c : nccl_ofi_mr_cache) (h : Nat) :
    (nccl_ofi_mr_cache_lookup c h = -1 ∧ ∀ j, j < c.used → (c.slots j).ptr ≠ h) ∨
      (∃ k, k < c.used ∧ nccl_ofi_mr_cache_lookup c h = (k : Int) ∧ (c.slots k).ptr = h ∧
        ∀ j, j < k → (c.slots j).ptr ≠ h) := by
  unfold nccl_ofi_mr_cache_lookup
  rcases lookup_loop_spec c h c.used 0 with ⟨h1, h2⟩ | ⟨k, _, h2, h3, h4, h5⟩
  · left
    exact ⟨h1, fun j hj => h2 j (Nat.zero_le _) (by omega)⟩
  · right
    exact ⟨k, by omega, h3, h4, fun j hj => h5 j (Nat.zero_le _) hj⟩

/-- The live entries after `nccl_ofi_mr_cache_del_entry` are, as far as
`addr` and `pages` go, live entries from before the call in the same order:
there is a strictly increasing map `f` of the new live indices into the old
ones. -/
theorem del_entry_sublive (env : Env) (c : nccl_ofi_mr_cache) (tr : List Event) (h : Nat)
    (hcap : c.used ≤ c.size) :
    ∃ f : Nat → Nat, (∀ a b, a < b → f a < f b) ∧
      (∀ a, a < (nccl_ofi_mr_cache_del_entry env c tr h).2.1.used → f a < c.used) ∧
      ∀ a, a < (nccl_ofi_mr_cache_del_entry env c tr h).2.1.used →
        ((nccl_ofi_mr_cache_del_entry env c tr h).2.1.slots a).entry.addr
          = (c.slots (f a)).entry.addr ∧
        ((nccl_ofi_mr_cache_del_entry env c tr h).2.1.slots a).entry.pages
          = (c.slots (f a)).entry.pages := by
  unfold nccl_ofi_mr_cache_del_entry
  dsimp only
  rcases lookup_spec c h with ⟨h1, _⟩ | ⟨k, hk, h1, _, _⟩
  · rw [h1]
    simp only [show ((-1 : Int) < 0) from by decide, if_true]
    exact ⟨id, fun a b hab => hab, fun a ha => ha, fun a _ => ⟨rfl, rfl⟩⟩
  · rw [h1]
    have hn : ¬ ((k : Int) < 0) := by omega
    simp only [hn, if_false, Int.toNat_ofNat]
    split
    · refine ⟨id, fun a b hab => hab, fun a ha => ha, fun a _ => ?_⟩
      by_cases hak : a = k
      · simp [setSlot, hak]
      · simp [setSlot, hak]
    · have key : ∀ a, a < c.used - 1 →
          ((memmove (setSlot c.slots k
              ⟨(c.slots k).ptr,
                { (c.slots k).entry with refcnt := (c.slots k).entry.refcnt - 1 }⟩)
            k (k + 1) (c.size - k - 1)) a)
            = c.slots (if a < k then a else a + 1) := by
        intro a ha
        by_cases hak : a < k
        · have h3 : ¬ (k ≤ a ∧ a < k + (c.size - k - 1)) := by omega
          have h4 : a ≠ k := by omega
          simp only [memmove, setSlot, h3, hak, h4, if_true, if_false]
        · have h3 : k ≤ a ∧ a < k + (c.size - k - 1) := by omega
          have h4 : k + 1 + (a - k) = a + 1 := by omega
          have h5 : a + 1 ≠ k := by omega
          simp only [memmove, setSlot, h3, hak, h4, h5, if_true, if_false, and_self]
      refine ⟨fun a => if a < k then a else a + 1, ?_, ?_, ?_⟩
      · intro a b hab
        dsimp only
        split <;> split <;> omega
      · intro a ha
        have ha2 : a < c.used - 1 := by
          split at ha <;> exact ha
        dsimp only
        split <;> omega
      · intro a ha
        have ha2 : a < c.used - 1 := by
          split at ha <;> exact ha
        have hk2 := key a ha2
        split <;> (dsimp only [nccl_ofi_mr_cache_finalize]; rw [hk2]; exact ⟨rfl, rfl⟩)
/-- The order invariant and the one-page minimum carry over to a cache whose
live entries are, in `addr` and `pages`, an order-preserving selection of
the live entries of a cache that has them. -/
theorem ordered_of_sublive (ps : Nat) (c d : nccl_ofi_mr_cache) (f : Nat → Nat)
    (hmono : ∀ a b, a < b → f a < f b) (hrange : ∀ a, a < d.used → f a < c.used)
    (hsame : ∀ a, a < d.used → (d.slots a).entry.addr = (c.slots (f a)).entry.addr ∧
      (d.slots a).entry.pages = (c.slots (f a)).entry.pages)
    (hord : ordered ps (live c)) (hpos : ∀ e ∈ live c, 0 < e.pages) :
    ordered ps (live d) ∧ ∀ e ∈ live d, 0 < e.pages := by
  unfold ordered at hord ⊢
  rw [live_pairwise_iff] at hord ⊢
  rw [live_forall_iff] at hpos ⊢
  constructor
  · intro a b hab hb
    have h1 := hord (f a) (f b) (hmono a b hab) (hrange b hb)
    have ha := hsame a (by omega)
    have hb2 := hsame b hb
    unfold overlap at h1 ⊢
    rw [ha.1, ha.2, hb2.1, hb2.2]
    exact h1
  · intro a ha
    rw [(hsame a ha).2]
    exact hpos (f a) (hrange a ha)

/-- A request that no live entry hits but whose page range overlaps the page
range of a live entry is not merged or rejected: when its registration
succeeds it is inserted as a further entry, and right after that insertion
the live entries do not satisfy the order invariant. -/
theorem add_entry_overlapping_insert (env : Env) (c : nccl_ofi_mr_cache) (tr : List Event)
    (r : Request) (h0 : Option Nat) (hcap : c.used ≤ c.size)
    (hmiss : ∀ e ∈ live c,
      ¬ hit_test env (page_addr env r.data) (page_count env r.data r.size) e)
    (hov : ∃ e ∈ live c, page_range_overlap (page_size env) e.addr e.pages
      (page_addr env r.data) (page_count env r.data r.size))
    (hok : 0 ≤ miss_reg_status env tr c r.data r.size r.type) :
    ∃ k s, k ≤ c.used ∧
      nccl_ofi_mr_cache_add_entry env (k + 1) c tr r.data r.size r.type h0
        = Outcome.running (k + 1) s ∧
      s.cache.used = c.used + 1 ∧
      (s.cache.slots k).entry.addr = page_addr env r.data ∧
      (s.cache.slots k).entry.pages = page_count env r.data r.size ∧
      (s.cache.slots k).entry.refcnt = 1 ∧
      ¬ ordered (page_size env) (live s.cache) := by
  obtain ⟨k, hkle, _, _, _, hsucc, _⟩ :=
    add_entry_first_insert env c tr r.data r.size r.type h0 hcap hmiss
  obtain ⟨s, hrun, hused, haddr, hpages, href, _, hl, hh⟩ := hsucc hok
  refine ⟨k, s, hkle, hrun, hused, haddr, hpages, href, ?_⟩
  obtain ⟨e, he, hove⟩ := hov
  unfold live at he
  obtain ⟨j, hj, rfl⟩ := List.mem_map.mp he
  have hju : j < c.used := List.mem_range.mp hj
  intro hord
  unfold ordered at hord
  rw [live_pairwise_iff] at hord
  by_cases hjk : j < k
  · have h1 := (hord j k hjk (by omega)).2
    unfold overlap at h1
    rw [hl j hjk, haddr, hpages] at h1
    exact h1 hove
  · have h1 := (hord k (j + 1) (by omega) (by omega)).2
    unfold overlap at h1
    rw [hh (j + 1) (by omega) (by omega), haddr, hpages, Nat.add_sub_cancel] at h1
    apply h1
    unfold page_range_overlap at hove ⊢
    simp only [Nat.lt_min, Nat.max_lt] at hove ⊢
    omega

/-- C10 (order invariant, as amended).  Let the live entries of a cache with
`used <= size` be in strictly increasing `addr` order, pairwise
non-overlapping, and of at least one page each.  Then the same holds
(1) after every `nccl_ofi_mr_cache_del_entry` call;
(2) after every `nccl_ofi_mr_cache_add_entry` call for a request with at
least one byte whose page range lies within the page range of a live entry:
the call returns `0` without any external call;
(3) right after the first insertion made by `nccl_ofi_mr_cache_add_entry`
for a request with at least one byte whose page range overlaps no live
entry, when the registration made for that insertion succeeds: the entry is
inserted at some slot `k <= used` with `refcnt = 1`, and `used` has grown by
one.
(4) It does not hold right after the first insertion for a request that no
live entry hits but whose page range overlaps the page range of a live
entry: when the registration made for that insertion succeeds, the request
is inserted as a further entry with `refcnt = 1`, not merged or rejected. -/
theorem C10_order_preserved (env : Env) (c : nccl_ofi_mr_cache) (tr : List Event)
    (hps : 0 < page_size env) (hcap : c.used ≤ c.size)
    (hord : ordered (page_size env) (live c)) (hpos : ∀ e ∈ live c, 0 < e.pages) :
    (∀ h : Nat,
      ordered (page_size env) (live (nccl_ofi_mr_cache_del_entry env c tr h).2.1) ∧
      ∀ e ∈ live (nccl_ofi_mr_cache_del_entry env c tr h).2.1, 0 < e.pages) ∧
    (∀ (r : Request) (i fuel : Nat), i < c.used → 0 < r.size →
      (r.data : Int) + r.size + page_size env ≤ (WORD : Int) →
      (c.slots i).entry.addr ≤ page_addr env r.data →
      page_addr env r.data + page_count env r.data r.size * page_size env
        ≤ (c.slots i).entry.addr + (c.slots i).entry.pages * page_size env →
      c.used ≤ fuel →
      ∃ s, nccl_ofi_mr_cache_add_entry env fuel c tr r.data r.size r.type none
          = Outcome.returned s ∧
        s.ret = 0 ∧ s.trace = tr ∧
        ordered (page_size env) (live s.cache) ∧ ∀ e ∈ live s.cache, 0 < e.pages) ∧
    (∀ r : Request, 0 < r.size →
      (r.data : Int) + r.size + page_size env ≤ (WORD : Int) →
      (∀ e ∈ live c, ¬ page_range_overlap (page_size env) e.addr e.pages
        (page_addr env r.data) (page_count env r.data r.size)) →
      0 ≤ miss_reg_status env tr c r.data r.size r.type →
      ∃ k s, k ≤ c.used ∧
        nccl_ofi_mr_cache_add_entry env (k + 1) c tr r.data r.size r.type none
          = Outcome.running (k + 1) s ∧
        s.cache.used = c.used + 1 ∧
        (s.cache.slots k).entry.addr = page_addr env r.data ∧
        (s.cache.slots k).entry.pages = page_count env r.data r.size ∧
        (s.cache.slots k).entry.refcnt = 1 ∧
        ordered (page_size env) (live s.cache) ∧ ∀ e ∈ live s.cache, 0 < e.pages) ∧
    (∀ r : Request,
      (∀ e ∈ live c,
        ¬ hit_test env (page_addr env r.data) (page_count env r.data r.size) e) →
      (∃ e ∈ live c, page_range_overlap (page_size env) e.addr e.pages
        (page_addr env r.data) (page_count env r.data r.size)) →
      0 ≤ miss_reg_status env tr c r.data r.size r.type →
      ∃ k s, k ≤ c.used ∧
        nccl_ofi_mr_cache_add_entry env (k + 1) c tr r.data r.size r.type none
          = Outcome.running (k + 1) s ∧
        s.cache.used = c.used + 1 ∧
        (s.cache.slots k).entry.addr = page_addr env r.data ∧
        (s.cache.slots k).entry.pages = page_count env r.data r.size ∧
        (s.cache.slots k).entry.refcnt = 1 ∧
        ¬ ordered (page_size env) (live s.cache)) := by
  refine ⟨?_, ?_, ?_, ?_⟩
  · intro h
    obtain ⟨f, h1, h2, h3⟩ := del_entry_sublive env c tr h hcap
    exact ordered_of_sublive _ c _ f h1 h2 h3 hord hpos
  · intro r i fuel hi hsize hfit hlo hhi hfuel
    have hord2 := hord
    unfold ordered at hord2
    rw [live_pairwise_iff] at hord2
    have hcall := add_entry_nested_hit env c tr i r fuel none hps hi
      (fun j hj => le_of_lt (hord2 j i hj hi).1) (fun j hj => (hord2 j i hj hi).2)
      hsize hfit hlo hhi hfuel
    refine ⟨_, hcall, rfl, rfl, ?_⟩
    refine ordered_of_sublive _ c (addRef c i 1) id (fun a b hab => hab) (fun a ha => ha)
      ?_ hord hpos
    intro a _
    by_cases hai : a = i
    · rw [hai, addRef_slots_self]; exact ⟨rfl, rfl⟩
    · rw [addRef_slots_ne c i a 1 hai]; exact ⟨rfl, rfl⟩
  · intro r hsize hfit hdis hok
    exact add_entry_first_insert_ordered env c tr r none hps hcap hord hpos hsize hfit hdis hok
  · intro r hmiss hov hok
    exact add_entry_overlapping_insert env c tr r none hcap hmiss hov hok

/-- Witness for C10: page size 4096, the cache holding the one entry
`[4096, 12288)`, and a backend whose next registration succeeds and whose
registration after that fails.  The hypotheses hold there; releasing the
entry leaves an ordered cache; the disjoint request
`add(addr = 16384, size = 4096)` is inserted so that the live entries are
ordered again; the overlapping request `add(addr = 8192, size = 8192)` is
inserted so that they are not. -/
theorem C10_order_preserved_witness :
    0 < page_size (demoEnv (fun n => n == 2) 0) ∧ (cacheH1 1).used ≤ (cacheH1 1).size ∧
    ordered (page_size (demoEnv (fun n => n == 2) 0)) (live (cacheH1 1)) ∧
    (∀ e ∈ live (cacheH1 1), 0 < e.pages) ∧
    0 ≤ miss_reg_status (demoEnv (fun n => n == 2) 0) histH1 (cacheH1 1) 16384 4096 0 ∧
    0 ≤ miss_reg_status (demoEnv (fun n => n == 2) 0) histH1 (cacheH1 1) 8192 8192 0 ∧
    ordered (page_size (demoEnv (fun n => n == 2) 0))
      (live (nccl_ofi_mr_cache_del_entry (demoEnv (fun n => n == 2) 0) (cacheH1 1) histH1
        1000).2.1) ∧
    (∃ k s, k ≤ (cacheH1 1).used ∧
      nccl_ofi_mr_cache_add_entry (demoEnv (fun n => n == 2) 0) (k + 1) (cacheH1 1) histH1
        16384 4096 0 none = Outcome.running (k + 1) s ∧
      s.cache.used = (cacheH1 1).used + 1 ∧
      ordered (page_size (demoEnv (fun n => n == 2) 0)) (live s.cache)) ∧
    (∃ k s, k ≤ (cacheH1 1).used ∧
      nccl_ofi_mr_cache_add_entry (demoEnv (fun n => n == 2) 0) (k + 1) (cacheH1 1) histH1
        8192 8192 0 none = Outcome.running (k + 1) s ∧
      s.cache.used = (cacheH1 1).used + 1 ∧
      ¬ ordered (page_size (demoEnv (fun n => n == 2) 0)) (live s.cache)) := by
  have H := C10_order_preserved (demoEnv (fun n => n == 2) 0) (cacheH1 1) histH1
    (by decide) (by decide) (by decide) (by decide)
  refine ⟨by decide, by decide, by decide, by decide, by decide, by decide, (H.1 1000).1,
    ?_, ?_⟩
  · obtain ⟨k, s, h1, h2, h3, _, _, _, h4, _⟩ :=
      H.2.2.1 ⟨16384, 4096, 0⟩ (by decide) (by decide) (by decide) (by decide)
    exact ⟨k, s, h1, h2, h3, h4⟩
  · obtain ⟨k, s, h1, h2, h3, _, _, _, h4⟩ :=
      H.2.2.2 ⟨8192, 8192, 0⟩ (by decide) (by decide) (by decide)
    exact ⟨k, s, h1, h2, h3, h4⟩

/-- C10 (partially overlapping requests break the order).  Page size 4096, empty
cache, and a backend whose second and fourth registrations fail.  The calls
`add(addr = 4096, size = 8192)` and `add(addr = 8192, size = 8192)`, whose
page ranges `[4096, 12288)` and `[8192, 16384)` partially overlap, both
return, and leave two live entries whose page ranges overlap. -/
theorem C10_order_invariant_counterexample :
    ∃ out c tr,
      run_calls (demoEnv (fun n => n % 2 == 1) 0) 3
        [Call.add ⟨4096, 8192, 0⟩, Call.add ⟨8192, 8192, 0⟩] (emptyCache 128) []
        = some (out, c, tr) ∧
      live c = [⟨4096, 2, 1, 7000⟩, ⟨8192, 2, 1, 7002⟩] ∧
      overlap 4096 ⟨4096, 2, 1, 7000⟩ ⟨8192, 2, 1, 7002⟩ ∧
      ¬ ordered 4096 (live c) :=
  ⟨_, _, _, rfl, by decide, by decide, by decide⟩

/-! ## Growth -/

theorem lookup_loop_congr (c d : nccl_ofi_mr_cache) (h : Nat) :
    ∀ n i, (∀ j, i ≤ j → j < i + n → (d.slots j).ptr = (c.slots j).ptr) →
      lookup_loop d h n i = lookup_loop c h n i := by
  intro n
  induction n with
  | zero => intro i _; rfl
  | succ n ih =>
    intro i hj
    simp only [lookup_loop, hj i (le_refl _) (by omega)]
    rw [ih (i + 1) (fun j h1 h2 => hj j (by omega) (by omega))]

theorem liveSlots_congr (c d : nccl_ofi_mr_cache) (hu : d.used = c.used)
    (hs : ∀ i, i < c.used → d.slots i = c.slots i) : liveSlots d = liveSlots c := by
  unfold liveSlots
  rw [hu]
  apply List.map_congr_left
  intro i hi
  exact hs i (List.mem_range.mp hi)

theorem hits_at_congr (env : Env) (c d : nccl_ofi_mr_cache) (data : Nat) (size : Int) (i : Nat)
    (hu : d.used = c.used) (hs : ∀ j, j < c.used → d.slots j = c.slots j)
    (h : hits_at env c data size i) : hits_at env d data size i := by
  obtain ⟨h1, h2, h3, h4⟩ := h
  refine ⟨by omega, ?_, ?_, ?_⟩
  · intro j hj
    rw [hs j (by omega)]
    exact h2 j hj
  · rw [hs i h1]; exact h3
  · rw [hs i h1]; exact h4

/-- A request whose scan hits at slot `i` returns there: status `0`, the
entry's handle, its reference count raised by one, no external call. -/
theorem add_entry_of_hits_at (env : Env) (c : nccl_ofi_mr_cache) (tr : List Event)
    (data : Nat) (size type : Int) (h0 : Option Nat) (i fuel : Nat)
    (h : hits_at env c data size i) (hfuel : i < fuel) :
    nccl_ofi_mr_cache_add_entry env fuel c tr data size type h0 =
      Outcome.returned ⟨addRef c i 1, tr, some (c.slots i).entry.handle, 0⟩ := by
  obtain ⟨h1, h2, h3, h4⟩ := h
  unfold nccl_ofi_mr_cache_add_entry
  exact add_entry_loop_hit env data size type i ⟨c, tr, h0, 0⟩ h1 h2 h3 h4 i 0 fuel
    (by omega) hfuel

/-- C11 (growth).  When the reallocation succeeds, `nccl_ofi_mr_cache_grow`
on a cache with `used <= size` returns `0`; the capacity afterwards is twice
the capacity before; `used` is unchanged; the first `used` cells hold the
same entries in the same order; every handle lookup gives the same index as
before; and every request whose scan hit at slot `i` before still hits at
slot `i`, so that `nccl_ofi_mr_cache_add_entry` returns that entry's
handle. -/
theorem C11_grow (env : Env) (tr : List Event) (c : nccl_ofi_mr_cache) (fresh : Nat → Slot)
    (hre : env.realloc tr (c.size * 2) = some fresh) (hcap : c.used ≤ c.size) :
    (nccl_ofi_mr_cache_grow env tr c).1 = 0 ∧
    (nccl_ofi_mr_cache_grow env tr c).2.1.size = 2 * c.size ∧
    (nccl_ofi_mr_cache_grow env tr c).2.1.used = c.used ∧
    (∀ i, i < c.used → (nccl_ofi_mr_cache_grow env tr c).2.1.slots i = c.slots i) ∧
    liveSlots (nccl_ofi_mr_cache_grow env tr c).2.1 = liveSlots c ∧
    (∀ h, nccl_ofi_mr_cache_lookup (nccl_ofi_mr_cache_grow env tr c).2.1 h
      = nccl_ofi_mr_cache_lookup c h) ∧
    (∀ (data : Nat) (size type : Int) (i fuel : Nat) (tr1 : List Event) (h0 : Option Nat),
      hits_at env c data size i → i < fuel →
      hits_at env (nccl_ofi_mr_cache_grow env tr c).2.1 data size i ∧
      ∃ s, nccl_ofi_mr_cache_add_entry env fuel (nccl_ofi_mr_cache_grow env tr c).2.1 tr1
          data size type h0 = Outcome.returned s ∧
        s.ret = 0 ∧ s.handle = some (c.slots i).entry.handle) := by
  have hu := grow_used env tr c
  have hs : ∀ i, i < c.used → (nccl_ofi_mr_cache_grow env tr c).2.1.slots i = c.slots i :=
    fun i hi => grow_slots env tr c i (by omega)
  refine ⟨?_, ?_, hu, hs, liveSlots_congr c _ hu hs, ?_, ?_⟩
  · unfold nccl_ofi_mr_cache_grow
    simp only [hre]
  · rw [grow_size]; omega
  · intro h
    unfold nccl_ofi_mr_cache_lookup
    rw [hu]
    exact lookup_loop_congr c _ h c.used 0 (fun j _ hj => by rw [hs j (by omega)])
  · intro data size type i fuel tr1 h0 hh hfuel
    have hh2 := hits_at_congr env c _ data size i hu hs hh
    refine ⟨hh2, _, add_entry_of_hits_at env _ tr1 data size type h0 i fuel hh2 hfuel, rfl, ?_⟩
    dsimp only
    rw [hs i hh.1]

/-- Witness for C11: the full cache of capacity 1 under an environment whose
`realloc` succeeds: after growing the capacity is 2 and the entry is still
in slot 0. -/
theorem C11_grow_witness :
    (demoEnv (fun _ => false) 0).realloc histH1 (cacheFull.size * 2)
      = some (fun _ => nullSlot) ∧
    cacheFull.used ≤ cacheFull.size ∧
    (nccl_ofi_mr_cache_grow (demoEnv (fun _ => false) 0) histH1 cacheFull).2.1.size = 2 ∧
    liveSlots (nccl_ofi_mr_cache_grow (demoEnv (fun _ => false) 0) histH1 cacheFull).2.1
      = liveSlots cacheFull :=
  ⟨rfl, by decide,
    (C11_grow (demoEnv (fun _ => false) 0) histH1 cacheFull (fun _ => nullSlot) rfl
      (by decide)).2.1,
    (C11_grow (demoEnv (fun _ => false) 0) histH1 cacheFull (fun _ => nullSlot) rfl
      (by decide)).2.2.2.2.1⟩

/-- C12 (a failed reallocation is not handled).  The full cache of capacity 1
under an environment whose `realloc` returns null with `errno = 12`.
`nccl_ofi_mr_cache_grow` returns `12` but has already doubled `size` to 2.
`nccl_ofi_mr_cache_add_entry` for the miss `add(addr = 16384, size = 4096)`
ignores that status.  With a backend that fails, it returns the backend's
`-1` after calling the backend, with `size = 2`.  With a backend whose first
registration succeeds and second fails, it returns after inserting the new
entry and doubling `size` twice. -/
theorem C12_failed_realloc_ignored :
    cacheFull.used = cacheFull.size ∧ cacheFull.size = 1 ∧
    (nccl_ofi_mr_cache_grow (demoEnvNoMem (fun _ => true) 0) histH1 cacheFull).1 = 12 ∧
    (nccl_ofi_mr_cache_grow (demoEnvNoMem (fun _ => true) 0) histH1 cacheFull).2.1.size = 2 ∧
    (∃ s, nccl_ofi_mr_cache_add_entry (demoEnvNoMem (fun _ => true) 0) 2 cacheFull histH1
        16384 4096 0 none = Outcome.returned s ∧
      s.ret = -1 ∧ s.cache.size = 2 ∧
      s.trace = histH1 ++ [Event.realloc 2, Event.calloc 1032, Event.regMr 16384 4096 0]) ∧
    (∃ s, nccl_ofi_mr_cache_add_entry (demoEnvNoMem (fun n => n == 2) 0) 3 cacheFull histH1
        16384 4096 0 none = Outcome.returned s ∧
      s.cache.used = 2 ∧ s.cache.size = 4 ∧
      live s.cache = [⟨4096, 2, 1, 7000⟩, ⟨16384, 1, 1, 7001⟩] ∧
      regCount s.trace = regCount histH1 + 2) :=
  ⟨by decide, by decide, by decide, by decide,
    ⟨_, rfl, by decide, by decide, by decide⟩,
    ⟨_, rfl, by decide, by decide, by decide, by decide⟩⟩

/-- C13 (initialisation does not reach the caller's cache).  For every
outcome of `calloc` and of the mutex initialisation, every cache and every
`size`, `nccl_ofi_mr_cache_init` leaves the object it was given unchanged,
and the object it allocates has `size = 0` and `used = 0`.  In particular a
successful `nccl_ofi_mr_cache_init(cache, 128)` on an object whose `size`
field is 7 returns `0` and leaves that field at 7; the capacity 128 is
stored nowhere. -/
theorem C13_init_ignores_size :
    (∀ (ienv : InitEnv) (c : nccl_ofi_mr_cache) (n : Int),
      (nccl_ofi_mr_cache_init ienv c n).cache = c ∧
      ∀ a, (nccl_ofi_mr_cache_init ienv c n).allocated = some a → a.size = 0 ∧ a.used = 0) ∧
    (nccl_ofi_mr_cache_init ⟨some 5000, 0, 0⟩ (emptyCache 7) 128).ret = 0 ∧
    (nccl_ofi_mr_cache_init ⟨some 5000, 0, 0⟩ (emptyCache 7) 128).cache.size = 7 ∧
    (nccl_ofi_mr_cache_init ⟨some 5000, 0, 0⟩ (emptyCache 7) 128).allocated.map
      (fun a => a.size) = some 0 := by
  refine ⟨?_, by decide, by decide, by decide⟩
  intro ienv c n
  unfold nccl_ofi_mr_cache_init
  cases ienv.calloc_cache with
  | none => exact ⟨rfl, fun a h => by simp at h⟩
  | some p =>
    refine ⟨rfl, fun a h => ?_⟩
    simp only [Option.some.injEq] at h
    rw [← h]
    exact ⟨rfl, rfl⟩

/-! ## The hit test -/

/-- C14 (the hit test is page-range containment).  For a positive page size,
an entry `e` whose `addr` is a multiple of the page size, and a page-rounded
request range (`addr` a multiple of the page size, `pages` pages, ending
below the word limit), the hit condition of `nccl_ofi_mr_cache_add_entry`
holds exactly when `e.addr <= addr` and
`addr + pages * page_size <= e.addr + e.pages * page_size`.  Two requests
with the same page-rounded base and page count get the same answer, whatever
their raw `data` and `size`. -/
theorem C14_hit_iff_contained (env : Env) (e : nccl_ofi_reg_entry) (addr pages : Nat)
    (hps : 0 < page_size env) (he : page_size env ∣ e.addr) (ha : page_size env ∣ addr)
    (hfit : addr + pages * page_size env < WORD) :
    (hit_test env addr pages e ↔
      (e.addr ≤ addr ∧
        addr + pages * page_size env ≤ e.addr + e.pages * page_size env)) ∧
    (∀ (d1 d2 : Nat) (s1 s2 : Int), page_addr env d1 = page_addr env d2 →
      page_count env d1 s1 = page_count env d2 s2 →
      (hit_test env (page_addr env d1) (page_count env d1 s1) e ↔
        hit_test env (page_addr env d2) (page_count env d2 s2) e)) := by
  constructor
  · constructor
    · intro h
      unfold hit_test at h
      obtain ⟨h1, h2⟩ := h
      refine ⟨h1, ?_⟩
      have hlt : (addr - e.addr) / page_size env + pages < WORD := by
        have : (addr - e.addr) / page_size env ≤ addr :=
          le_trans (Nat.div_le_self _ _) (Nat.sub_le _ _)
        have : pages ≤ pages * page_size env := Nat.le_mul_of_pos_right _ hps
        omega
      rw [Nat.mod_eq_of_lt hlt] at h2
      have hd : page_size env ∣ addr - e.addr := Nat.dvd_sub' ha he
      obtain ⟨q, hq⟩ := hd
      rw [hq, Nat.mul_div_cancel_left q hps] at h2
      have h3 : (q + pages) * page_size env ≤ e.pages * page_size env :=
        Nat.mul_le_mul_right _ h2
      have h4 : (q + pages) * page_size env = page_size env * q + pages * page_size env := by
        ring
      omega
    · rintro ⟨h1, h2⟩
      exact hit_of_nested env addr pages e hps h1 h2 hfit
  · intro d1 d2 s1 s2 h1 h2
    rw [h1, h2]

/-- Witness for C14: page size 4096, the entry `[4096, 12288)` and the
request range of one page at `4096`: the range is contained, so the hit test
holds. -/
theorem C14_hit_iff_contained_witness :
    0 < page_size (demoEnv (fun _ => false) 0) ∧
    page_size (demoEnv (fun _ => false) 0) ∣ 4096 ∧
    4096 + 1 * page_size (demoEnv (fun _ => false) 0) < WORD ∧
    hit_test (demoEnv (fun _ => false) 0) 4096 1 ⟨4096, 2, 1, 7000⟩ :=
  ⟨by decide, by decide, by decide,
    ((C14_hit_iff_contained (demoEnv (fun _ => false) 0) ⟨4096, 2, 1, 7000⟩ 4096 1
      (by decide) (by decide) (by decide) (by decide)).1).mpr ⟨by decide, by decide⟩⟩

/-! ## Frames of a hit and of a release -/

/-- C15 (frame of a hit).  When the scan of `nccl_ofi_mr_cache_add_entry`
hits the entry at slot `i`, the call returns `0` (within `i + 1` loop
iterations), `*handle` is that entry's handle, that entry's `refcnt` is one
more than before, and nothing else changes: `used`, `size`, the pointer,
`addr`, `pages` and `handle` of slot `i`, every other cell, and the history
of external calls are as before. -/
theorem C15_hit_frame (env : Env) (c : nccl_ofi_mr_cache) (tr : List Event) (data : Nat)
    (size type : Int) (h0 : Option Nat) (i fuel : Nat)
    (h : hits_at env c data size i) (hfuel : i < fuel) :
    ∃ s, nccl_ofi_mr_cache_add_entry env fuel c tr data size type h0 = Outcome.returned s ∧
      s.ret = 0 ∧ s.handle = some (c.slots i).entry.handle ∧
      (s.cache.slots i).entry.refcnt = (c.slots i).entry.refcnt + 1 ∧
      s.cache.used = c.used ∧ s.cache.size = c.size ∧ s.cache.finalized = c.finalized ∧
      (s.cache.slots i).ptr = (c.slots i).ptr ∧
      (s.cache.slots i).entry.addr = (c.slots i).entry.addr ∧
      (s.cache.slots i).entry.pages = (c.slots i).entry.pages ∧
      (s.cache.slots i).entry.handle = (c.slots i).entry.handle ∧
      (∀ j, j ≠ i → s.cache.slots j = c.slots j) ∧
      s.trace = tr := by
  refine ⟨_, add_entry_of_hits_at env c tr data size type h0 i fuel h hfuel, rfl, rfl, ?_, rfl,
    rfl, rfl, ?_, ?_, ?_, ?_, ?_, rfl⟩
  · simp only [addRef_slots_self]
  · simp only [addRef_slots_self]
  · simp only [addRef_slots_self]
  · simp only [addRef_slots_self]
  · simp only [addRef_slots_self]
  · intro j hj
    exact addRef_slots_ne c i j 1 hj

/-- Witness for C15: page size 4096, the entry `[4096, 12288)` with
`refcnt = 1` in slot 0 and the request `add(addr = 5000, size = 100)`, which
hits slot 0: the call returns and the reference count is 2. -/
theorem C15_hit_frame_witness :
    hits_at (demoEnv (fun _ => true) 0) (cacheH1 1) 5000 100 0 ∧ 0 < 1 ∧
    ∃ s, nccl_ofi_mr_cache_add_entry (demoEnv (fun _ => true) 0) 1 (cacheH1 1) histH1
        5000 100 0 none = Outcome.returned s ∧
      s.ret = 0 ∧ s.handle = some 7000 ∧ (s.cache.slots 0).entry.refcnt = 2 ∧
      s.trace = histH1 := by
  refine ⟨by decide, by decide, ?_⟩
  obtain ⟨s, h1, h2, h3, h4, _, _, _, _, _, _, _, _, h5⟩ :=
    C15_hit_frame (demoEnv (fun _ => true) 0) (cacheH1 1) histH1 5000 100 0 none 0 1
      (by decide) (by decide)
  exact ⟨s, h1, h2, h3, h4, h5⟩

/-- C16 (release that keeps the entry).  When the lookup of
`nccl_ofi_mr_cache_del_entry` locates slot `i` and that entry's `refcnt` is
greater than 1, the call returns `0`, the entry's `refcnt` is one less than
before, no external call is made (the history is unchanged, so the backend
deregister is not invoked), and `used`, `size`, the pointer, `addr`, `pages`
and `handle` of slot `i` and every other cell are as before. -/
theorem C16_release_keeps_entry (env : Env) (c : nccl_ofi_mr_cache) (tr : List Event)
    (h i : Nat) (hl : nccl_ofi_mr_cache_lookup c h = (i : Int))
    (hr : 1 < (c.slots i).entry.refcnt) :
    (nccl_ofi_mr_cache_del_entry env c tr h).1 = 0 ∧
    ((nccl_ofi_mr_cache_del_entry env c tr h).2.1.slots i).entry.refcnt
      = (c.slots i).entry.refcnt - 1 ∧
    (nccl_ofi_mr_cache_del_entry env c tr h).2.2 = tr ∧
    (nccl_ofi_mr_cache_del_entry env c tr h).2.1.used = c.used ∧
    (nccl_ofi_mr_cache_del_entry env c tr h).2.1.size = c.size ∧
    (nccl_ofi_mr_cache_del_entry env c tr h).2.1.finalized = c.finalized ∧
    ((nccl_ofi_mr_cache_del_entry env c tr h).2.1.slots i).ptr = (c.slots i).ptr ∧
    ((nccl_ofi_mr_cache_del_entry env c tr h).2.1.slots i).entry.addr
      = (c.slots i).entry.addr ∧
    ((nccl_ofi_mr_cache_del_entry env c tr h).2.1.slots i).entry.pages
      = (c.slots i).entry.pages ∧
    ((nccl_ofi_mr_cache_del_entry env c tr h).2.1.slots i).entry.handle
      = (c.slots i).entry.handle ∧
    (∀ j, j ≠ i → (nccl_ofi_mr_cache_del_entry env c tr h).2.1.slots j = c.slots j) := by
  unfold nccl_ofi_mr_cache_del_entry
  dsimp only
  rw [hl]
  have hn : ¬ ((i : Int) < 0) := by omega
  have hne : (c.slots i).entry.refcnt - 1 ≠ 0 := by omega
  simp only [hn, if_false, Int.toNat_ofNat, hne, ne_eq, not_false_eq_true, if_true, setSlot]
  refine ⟨trivial, trivial, trivial, trivial, trivial, trivial, trivial, trivial, trivial,
    trivial, ?_⟩
  intro j hj
  simp only [hj, if_false]

/-- Witness for C16: the entry `[4096, 12288)` with `refcnt = 2`, stored at
pointer `1000`, which is the value the lookup matches: releasing it returns
`0`, leaves `refcnt = 1` and makes no external call. -/
theorem C16_release_keeps_entry_witness :
    nccl_ofi_mr_cache_lookup (cacheH1 2) 1000 = ((0 : Nat) : Int) ∧
    1 < ((cacheH1 2).slots 0).entry.refcnt ∧
    (nccl_ofi_mr_cache_del_entry (demoEnv (fun _ => false) 0) (cacheH1 2) histH1 1000).1 = 0 ∧
    ((nccl_ofi_mr_cache_del_entry (demoEnv (fun _ => false) 0) (cacheH1 2) histH1
      1000).2.1.slots 0).entry.refcnt = 1 ∧
    (nccl_ofi_mr_cache_del_entry (demoEnv (fun _ => false) 0) (cacheH1 2) histH1 1000).2.2
      = histH1 :=
  ⟨by decide, by decide,
    (C16_release_keeps_entry (demoEnv (fun _ => false) 0) (cacheH1 2) histH1 1000 0
      (by decide) (by decide)).1,
    (C16_release_keeps_entry (demoEnv (fun _ => false) 0) (cacheH1 2) histH1 1000 0
      (by decide) (by decide)).2.1,
    (C16_release_keeps_entry (demoEnv (fun _ => false) 0) (cacheH1 2) histH1 1000 0
      (by decide) (by decide)).2.2.1⟩

/-- The cells `0 .. n` of an array from which cell `i` has been cut out by
moving the later cells one position left are the original `n + 1` cells
without the one at `i`. -/
theorem map_range_eraseIdx (f g : Nat → Slot) (n i : Nat) (hi : i ≤ n)
    (hlow : ∀ a, a < i → g a = f a) (hhigh : ∀ a, i ≤ a → a < n → g a = f (a + 1)) :
    (List.range n).map g = ((List.range (n + 1)).map f).eraseIdx i := by
  apply List.ext_getElem
  · have hlt : i < n + 1 := by omega
    simp [List.length_eraseIdx, hlt]
  · intro a h1 h2
    simp only [List.length_map, List.length_range] at h1
    rw [List.getElem_eraseIdx]
    simp only [List.getElem_map, List.getElem_range]
    by_cases ha : a < i
    · simp only [ha, dif_pos, hlow a ha]
    · simp only [ha, dif_neg, not_false_eq_true]
      exact hhigh a (by omega) h1

/-- C17 (last release removes exactly one entry).  When the lookup of
`nccl_ofi_mr_cache_del_entry` locates slot `i` and that entry's `refcnt` is
1, in a cache with `used <= size`: `nccl_ofi_mr_dereg_comm` is run exactly
once, on that entry's handle, and the entry is freed (for a send or receive
communicator the history gains exactly the backend `deregMr` on that handle
and the `free`); `used` decreases by one; the cells below `i` are as before
and the cells from `i` on hold what was one position higher, so the live
sequence is the previous one with its `i`-th element deleted; the status is
`0`.  None of this depends on the status the deregistration returned. -/
theorem C17_last_release (env : Env) (c : nccl_ofi_mr_cache) (tr : List Event) (h i : Nat)
    (hcap : c.used ≤ c.size) (hl : nccl_ofi_mr_cache_lookup c h = (i : Int))
    (hr : (c.slots i).entry.refcnt = 1) :
    (nccl_ofi_mr_cache_del_entry env c tr h).2.2
      = (nccl_ofi_mr_dereg_comm env tr (c.slots i).entry.handle).2
          ++ [Event.free (c.slots i).ptr] ∧
    ((env.comm_type = nccl_net_ofi_comm_type.NCCL_NET_OFI_SEND_COMM ∨
        env.comm_type = nccl_net_ofi_comm_type.NCCL_NET_OFI_RECV_COMM) →
      (nccl_ofi_mr_cache_del_entry env c tr h).2.2
        = tr ++ [Event.deregMr (c.slots i).entry.handle, Event.free (c.slots i).ptr] ∧
      deregCount (nccl_ofi_mr_cache_del_entry env c tr h).2.2 = deregCount tr + 1) ∧
    i < c.used ∧
    (nccl_ofi_mr_cache_del_entry env c tr h).2.1.used + 1 = c.used ∧
    (nccl_ofi_mr_cache_del_entry env c tr h).2.1.size = c.size ∧
    (∀ a, a < i → (nccl_ofi_mr_cache_del_entry env c tr h).2.1.slots a = c.slots a) ∧
    (∀ a, i ≤ a → a + 1 < c.used →
      (nccl_ofi_mr_cache_del_entry env c tr h).2.1.slots a = c.slots (a + 1)) ∧
    liveSlots (nccl_ofi_mr_cache_del_entry env c tr h).2.1 = (liveSlots c).eraseIdx i ∧
    (nccl_ofi_mr_cache_del_entry env c tr h).1 = 0 := by
  have hi : i < c.used := by
    rcases lookup_spec c h with ⟨h1, _⟩ | ⟨k, hk, h1, _, _⟩
    · rw [hl] at h1; omega
    · rw [hl] at h1
      have : i = k := by exact_mod_cast h1
      omega
  have hn : ¬ ((i : Int) < 0) := by omega
  have key : ∀ a, a + 1 < c.used →
      (memmove (setSlot c.slots i
          ⟨(c.slots i).ptr,
            { (c.slots i).entry with refcnt := (c.slots i).entry.refcnt - 1 }⟩)
        i (i + 1) (c.size - i - 1)) a
        = c.slots (if a < i then a else a + 1) := by
    intro a ha
    by_cases hak : a < i
    · have h3 : ¬ (i ≤ a ∧ a < i + (c.size - i - 1)) := by omega
      have h4 : a ≠ i := by omega
      simp only [memmove, setSlot, h3, hak, h4, if_true, if_false]
    · have h3 : i ≤ a ∧ a < i + (c.size - i - 1) := by omega
      have h4 : i + 1 + (a - i) = a + 1 := by omega
      have h5 : a + 1 ≠ i := by omega
      simp only [memmove, setSlot, h3, hak, h4, h5, if_true, if_false, and_self]
  have hres : nccl_ofi_mr_cache_del_entry env c tr h =
      (0,
        (if c.used - 1 = 0 then nccl_ofi_mr_cache_finalize else id)
          { slots := memmove (setSlot c.slots i
                ⟨(c.slots i).ptr,
                  { (c.slots i).entry with refcnt := (c.slots i).entry.refcnt - 1 }⟩)
              i (i + 1) (c.size - i - 1)
            size := c.size
            used := c.used - 1
            finalized := c.finalized },
        (nccl_ofi_mr_dereg_comm env tr (c.slots i).entry.handle).2
          ++ [Event.free (c.slots i).ptr]) := by
    unfold nccl_ofi_mr_cache_del_entry
    dsimp only
    rw [hl]
    simp only [hn, if_false, Int.toNat_ofNat, hr, sub_self, ne_eq, not_true_eq_false]
    split <;> rfl
  have hslots : ∀ a, (nccl_ofi_mr_cache_del_entry env c tr h).2.1.slots a =
      (memmove (setSlot c.slots i
          ⟨(c.slots i).ptr,
            { (c.slots i).entry with refcnt := (c.slots i).entry.refcnt - 1 }⟩)
        i (i + 1) (c.size - i - 1)) a := by
    intro a
    rw [hres]
    dsimp only
    split <;> rfl
  have hused : (nccl_ofi_mr_cache_del_entry env c tr h).2.1.used = c.used - 1 := by
    rw [hres]
    dsimp only
    split <;> rfl
  have hlow : ∀ a, a < i → (nccl_ofi_mr_cache_del_entry env c tr h).2.1.slots a = c.slots a := by
    intro a ha
    rw [hslots, key a (by omega)]
    simp only [ha, if_true]
  have hhigh : ∀ a, i ≤ a → a + 1 < c.used →
      (nccl_ofi_mr_cache_del_entry env c tr h).2.1.slots a = c.slots (a + 1) := by
    intro a ha1 ha2
    rw [hslots, key a ha2]
    have : ¬ a < i := by omega
    simp only [this, if_false]
  refine ⟨by rw [hres], ?_, hi, by rw [hused]; omega, ?_, hlow, hhigh, ?_, by rw [hres]⟩
  · intro hc
    have hd : (nccl_ofi_mr_dereg_comm env tr (c.slots i).entry.handle).2
        = tr ++ [Event.deregMr (c.slots i).entry.handle] := by
      unfold nccl_ofi_mr_dereg_comm
      rcases hc with hc | hc <;> rw [hc]
    rw [hres]
    dsimp only
    rw [hd]
    refine ⟨by simp, ?_⟩
    simp [deregCount, List.filter_append]
  · rw [hres]
    dsimp only
    split <;> rfl
  · unfold liveSlots
    rw [hused]
    obtain ⟨n, hn2⟩ : ∃ n, c.used = n + 1 := ⟨c.used - 1, by omega⟩
    rw [hn2]
    simp only [Nat.add_sub_cancel]
    exact map_range_eraseIdx c.slots _ n i (by omega) hlow
      (fun a h1 h2 => hhigh a h1 (by omega))

/-- Witness for C17: the entry `[4096, 12288)` with `refcnt = 1`, stored at
pointer `1000`, which is the value the lookup matches, and a backend
deregister that returns `-5`: the release runs the deregistration once on
the entry's handle `7000`, frees the entry and leaves no live entry. -/
theorem C17_last_release_witness :
    (cacheH1 1).used ≤ (cacheH1 1).size ∧
    nccl_ofi_mr_cache_lookup (cacheH1 1) 1000 = ((0 : Nat) : Int) ∧
    ((cacheH1 1).slots 0).entry.refcnt = 1 ∧
    (nccl_ofi_mr_cache_del_entry (demoEnv (fun _ => false) (-5)) (cacheH1 1) histH1 1000).2.2
      = histH1 ++ [Event.deregMr 7000, Event.free 1000] ∧
    (nccl_ofi_mr_cache_del_entry (demoEnv (fun _ => false) (-5)) (cacheH1 1) histH1
      1000).2.1.used + 1 = 1 ∧
    liveSlots (nccl_ofi_mr_cache_del_entry (demoEnv (fun _ => false) (-5)) (cacheH1 1) histH1
      1000).2.1 = (liveSlots (cacheH1 1)).eraseIdx 0 := by
  have H := C17_last_release (demoEnv (fun _ => false) (-5)) (cacheH1 1) histH1 1000 0
    (by decide) (by decide) (by decide)
  exact ⟨by decide, by decide, by decide, (H.2.1 (Or.inl rfl)).1, H.2.2.2.1,
    H.2.2.2.2.2.2.2.1⟩

/-! ## Where a miss inserts -/

theorem map_range_insert (f g : Nat → Slot) (n k : Nat) (hk : k ≤ n)
    (hlow : ∀ a, a < k → g a = f a) (hhigh : ∀ a, k < a → a ≤ n → g a = f (a - 1)) :
    (List.range (n + 1)).map g
      = ((List.range n).map f).take k ++ g k :: ((List.range n).map f).drop k := by
  apply List.ext_getElem?
  intro a
  have hlen : (List.take k (List.map f (List.range n))).length = k := by
    simp only [List.length_take, List.length_map, List.length_range]; omega
  rw [List.getElem?_append, hlen, List.getElem?_map]
  by_cases ha : a < k
  · simp only [ha, if_true]
    rw [List.getElem?_take_of_lt ha, List.getElem?_map, List.getElem?_range (by omega),
      List.getElem?_range (by omega)]
    simp only [Option.map_some', hlow a ha]
  · simp only [ha, if_false]
    by_cases hak : a = k
    · subst hak
      rw [Nat.sub_self, List.getElem?_cons_zero, List.getElem?_range (by omega)]
      rfl
    · obtain ⟨m, hm⟩ : ∃ m, a - k = m + 1 := ⟨a - k - 1, by omega⟩
      rw [hm, List.getElem?_cons_succ, List.getElem?_drop, List.getElem?_map]
      have hkm : k + m = a - 1 := by omega
      rw [hkm]
      by_cases han : a ≤ n
      · rw [List.getElem?_range (by omega), List.getElem?_range (by omega)]
        simp only [Option.map_some', hhigh a (by omega) han]
      · have h1 : (List.range (n + 1))[a]? = none := by
          rw [List.getElem?_eq_none]; simp; omega
        have h2 : (List.range n)[a - 1]? = none := by
          rw [List.getElem?_eq_none]; simp; omega
        rw [h1, h2]
        rfl

theorem live_eq_map (c : nccl_ofi_mr_cache) :
    live c = (liveSlots c).map (fun s => s.entry) := by
  unfold live liveSlots
  rw [List.map_map]
  rfl

/-- Placing an entry with base `addr` at position `k` of a sequence sorted
by `addr`, where every entry before `k` starts at or below `addr` and the
entry at `k`, if any, starts above it, gives a sequence sorted by `addr`. -/
theorem sorted_insert (c : nccl_ofi_mr_cache) (addr k : Nat) (new : nccl_ofi_reg_entry)
    (hsorted : (live c).Pairwise (fun a b => a.addr ≤ b.addr))
    (hlow : ∀ j, j < k → j < c.used → (c.slots j).entry.addr ≤ addr)
    (hhigh : k = c.used ∨ addr < (c.slots k).entry.addr) (hk : k ≤ c.used)
    (hnew : new.addr = addr) :
    ((live c).take k ++ new :: (live c).drop k).Pairwise (fun a b => a.addr ≤ b.addr) := by
  have hs2 := hsorted
  rw [live_pairwise_iff] at hs2
  have hlen : (live c).length = c.used := by simp [live]
  have hget : ∀ (i : Nat) (hi : i < (live c).length), (live c)[i] = (c.slots i).entry := by
    intro i hi
    simp [live]
  have hdrop : ∀ b ∈ (live c).drop k, addr < b.addr := by
    intro b hb
    rw [List.mem_drop_iff_getElem] at hb
    obtain ⟨i, hm, rfl⟩ := hb
    rw [hget]
    rw [hlen] at hm
    have h1 : addr < (c.slots k).entry.addr := by
      rcases hhigh with h | h
      · omega
      · exact h
    by_cases hi : i = 0
    · rw [hi]; exact h1
    · have := hs2 k (k + i) (by omega) (by omega)
      omega
  have htake : ∀ a ∈ (live c).take k, a.addr ≤ addr := by
    intro a ha
    rw [List.mem_take_iff_getElem] at ha
    obtain ⟨i, hm, rfl⟩ := ha
    rw [hget]
    rw [hlen] at hm
    exact hlow i (by omega) (by omega)
  rw [List.pairwise_append]
  refine ⟨hsorted.sublist (List.take_sublist _ _), ?_, ?_⟩
  · rw [List.pairwise_cons]
    refine ⟨fun b hb => ?_, hsorted.sublist (List.drop_sublist _ _)⟩
    have := hdrop b hb
    omega
  · intro a ha b hb
    have h1 := htake a ha
    rw [List.mem_cons] at hb
    rcases hb with hb | hb
    · rw [hb]; omega
    · have := hdrop b hb
      omega

/-- C18 (sorted insertion position).  In a cache with `used <= size` whose
live entries are in non-decreasing `addr` order, take a request that no live
entry hits.  There is a slot `k <= used` such that: `k` is the first index
whose entry has `addr` strictly greater than the request's page-rounded base
(or `used` if there is none), so every entry before `k` has `addr` at most
the base; the scan of `nccl_ofi_mr_cache_add_entry` reaches slot `k` with
nothing changed; the live sequence with a new entry of that base placed at
position `k` is in non-decreasing `addr` order; and the iteration at slot
`k` takes the miss branch: it stores the newly allocated entry in cell `k`,
leaves the cells below `k` as they were and moves the previously live cells
`k .. used - 1` up by one.  When the registration made there succeeds, the
new entry gets the request's base and page count and `refcnt = 1`, `used`
grows by one, and the live cells are exactly the previous ones with the new
entry placed at position `k`, in non-decreasing `addr` order.  When it
fails, the call returns that status with `used` and the handle unchanged and
a zeroed entry in cell `k`. -/
theorem C18_sorted_insertion (env : Env) (c : nccl_ofi_mr_cache) (tr : List Event)
    (data : Nat) (size type : Int) (h0 : Option Nat)
    (hcap : c.used ≤ c.size)
    (hsorted : (live c).Pairwise (fun a b => a.addr ≤ b.addr))
    (hmiss : ∀ e ∈ live c,
      ¬ hit_test env (page_addr env data) (page_count env data size) e) :
    ∃ k, k ≤ c.used ∧
      (k = c.used ∨ page_addr env data < (c.slots k).entry.addr) ∧
      (∀ j, j < k → (c.slots j).entry.addr ≤ page_addr env data) ∧
      nccl_ofi_mr_cache_add_entry env k c tr data size type h0
        = Outcome.running k ⟨c, tr, h0, 0⟩ ∧
      (∀ new : nccl_ofi_reg_entry, new.addr = page_addr env data →
        ((live c).take k ++ new :: (live c).drop k).Pairwise
          (fun a b => a.addr ≤ b.addr)) ∧
      ∃ s, (nccl_ofi_mr_cache_add_entry env (k + 1) c tr data size type h0).state = s ∧
        (s.cache.slots k).ptr = miss_calloc_ptr env tr c ∧
        (∀ a, a < k → s.cache.slots a = c.slots a) ∧
        (∀ a, k < a → a ≤ c.used → s.cache.slots a = c.slots (a - 1)) ∧
        (0 ≤ miss_reg_status env tr c data size type →
          nccl_ofi_mr_cache_add_entry env (k + 1) c tr data size type h0
            = Outcome.running (k + 1) s ∧
          s.cache.used = c.used + 1 ∧
          (s.cache.slots k).entry.addr = page_addr env data ∧
          (s.cache.slots k).entry.pages = page_count env data size ∧
          (s.cache.slots k).entry.refcnt = 1 ∧
          liveSlots s.cache
            = (liveSlots c).take k ++ s.cache.slots k :: (liveSlots c).drop k ∧
          (live s.cache).Pairwise (fun a b => a.addr ≤ b.addr)) ∧
        (miss_reg_status env tr c data size type < 0 →
          nccl_ofi_mr_cache_add_entry env (k + 1) c tr data size type h0
            = Outcome.returned s ∧
          s.ret = miss_reg_status env tr c data size type ∧
          s.cache.used = c.used ∧ s.handle = h0 ∧
          (s.cache.slots k).entry.addr = 0 ∧ (s.cache.slots k).entry.pages = 0 ∧
          (s.cache.slots k).entry.refcnt = 0) := by
  obtain ⟨k, hkle, hk, hlow, hscan, hsucc, hfail⟩ :=
    add_entry_first_insert env c tr data size type h0 hcap hmiss
  have hins := fun new hnew =>
    sorted_insert c (page_addr env data) k new hsorted (fun j hj _ => hlow j hj) hk hkle hnew
  refine ⟨k, hkle, hk, hlow, hscan, hins, ?_⟩
  by_cases hst : 0 ≤ miss_reg_status env tr c data size type
  · obtain ⟨s, hrun, hused, haddr, hpages, href, hptr, hl, hh⟩ := hsucc hst
    have hlist : liveSlots s.cache
        = (liveSlots c).take k ++ s.cache.slots k :: (liveSlots c).drop k := by
      unfold liveSlots
      rw [hused]
      exact map_range_insert c.slots s.cache.slots c.used k hkle hl hh
    refine ⟨s, by rw [hrun]; rfl, hptr, hl, hh, ?_, ?_⟩
    · intro _
      refine ⟨hrun, hused, haddr, hpages, href, hlist, ?_⟩
      rw [live_eq_map, hlist, List.map_append, List.map_cons, List.map_take, List.map_drop,
        ← live_eq_map]
      exact hins _ haddr
    · intro hneg
      omega
  · have hneg : miss_reg_status env tr c data size type < 0 := not_le.mp hst
    obtain ⟨s, hret, hstat, hused, hh0, haddr, hpages, href, hptr, hl, hh⟩ := hfail hneg
    refine ⟨s, by rw [hret]; rfl, hptr, hl, hh, ?_, ?_⟩
    · intro hpos
      omega
    · intro _
      exact ⟨hret, hstat, hused, hh0, haddr, hpages, href⟩

/-- Witness for C18: page size 4096, the cache holding the one entry
`[4096, 12288)`, a backend whose next registration succeeds, and the request
`add(addr = 0, size = 4096)`, which no entry hits.  The hypotheses hold
there; the new entry is inserted at slot `k = 0`, before the entry that was
live, `used` becomes 2, and the live entries are in non-decreasing `addr`
order. -/
theorem C18_sorted_insertion_witness :
    (cacheH1 1).used ≤ (cacheH1 1).size ∧
    (live (cacheH1 1)).Pairwise (fun a b => a.addr ≤ b.addr) ∧
    (∀ e ∈ live (cacheH1 1),
      ¬ hit_test (demoEnv (fun n => n == 2) 0) (page_addr (demoEnv (fun n => n == 2) 0) 0)
        (page_count (demoEnv (fun n => n == 2) 0) 0 4096) e) ∧
    0 ≤ miss_reg_status (demoEnv (fun n => n == 2) 0) histH1 (cacheH1 1) 0 4096 0 ∧
    ∃ k s, k = 0 ∧
      nccl_ofi_mr_cache_add_entry (demoEnv (fun n => n == 2) 0) (k + 1) (cacheH1 1) histH1
        0 4096 0 none = Outcome.running (k + 1) s ∧
      s.cache.used = 2 ∧
      (s.cache.slots k).entry.addr = 0 ∧
      (s.cache.slots k).entry.refcnt = 1 ∧
      s.cache.slots (k + 1) = (cacheH1 1).slots 0 ∧
      liveSlots s.cache
        = (liveSlots (cacheH1 1)).take k ++ s.cache.slots k :: (liveSlots (cacheH1 1)).drop k ∧
      (live s.cache).Pairwise (fun a b => a.addr ≤ b.addr) := by
  obtain ⟨k, _, _, hlow, _, _, s, _, _, _, hh, hsucc, _⟩ :=
    C18_sorted_insertion (demoEnv (fun n => n == 2) 0) (cacheH1 1) histH1 0 4096 0 none
      (by decide) (by decide) (by decide)
  obtain ⟨hrun, hused, haddr, _, href, hlist, hsort⟩ := hsucc (by decide)
  have hk0 : k = 0 := by
    by_contra hne
    exact absurd (hlow 0 (Nat.pos_of_ne_zero hne)) (by decide)
  subst hk0
  exact ⟨by decide, by decide, by decide, by decide, 0, s, rfl, hrun, hused, haddr, href,
    hh 1 (by decide) (by decide), hlist, hsort⟩

/-! ## Capacity -/

theorem grow_if_full_used (env : Env) (tr : List Event) (c : nccl_ofi_mr_cache) :
    (grow_if_full env tr c).used = c.used := by
  unfold grow_if_full
  split
  · exact grow_used env tr c
  · rfl

theorem grow_if_full_size (env : Env) (tr : List Event) (c : nccl_ofi_mr_cache)
    (hcap : c.used ≤ c.size) (hpos : 0 < c.size) :
    c.used < (grow_if_full env tr c).size ∧ c.size ≤ (grow_if_full env tr c).size := by
  unfold grow_if_full
  split
  · rw [grow_size]; omega
  · dsimp only; omega

/-- The capacity with which the miss branch of the loop body shifts and
stores is the capacity after the grow-if-full step. -/
theorem add_entry_body_miss_size (env : Env) (data : Nat) (size type : Int) (slot : Nat)
    (s : AddState)
    (hmiss : slot = s.cache.used ∨ page_addr env data < (s.cache.slots slot).entry.addr) :
    ∀ s1, (add_entry_body env data size type slot s = LoopStep.out s1 ∨
        add_entry_body env data size type slot s = LoopStep.next s1) →
      s1.cache.size = (grow_if_full env s.trace s.cache).size := by
  intro s1 h
  unfold add_entry_body at h
  simp only [hmiss, if_true] at h
  unfold grow_if_full
  generalize (if s.cache.used = s.cache.size then nccl_ofi_mr_cache_grow env s.trace s.cache
      else (0, s.cache, s.trace)) = g at h ⊢
  split at h
  · rcases h with h | h
    · injection h with h; rw [← h]
    · cases h
  · rcases h with h | h
    · cases h
    · injection h with h; rw [← h]

/-- One iteration of the loop keeps `used <= size` and a positive capacity. -/
theorem add_entry_body_capacity (env : Env) (data : Nat) (size type : Int) (slot : Nat)
    (s : AddState) (hcap : s.cache.used ≤ s.cache.size) (hpos : 0 < s.cache.size) :
    ∀ s1, (add_entry_body env data size type slot s = LoopStep.out s1 ∨
        add_entry_body env data size type slot s = LoopStep.next s1) →
      s1.cache.used ≤ s1.cache.size ∧ 0 < s1.cache.size := by
  intro s1 h
  have hgu := grow_if_full_used env s.trace s.cache
  have hgs := grow_if_full_size env s.trace s.cache hcap hpos
  unfold grow_if_full at hgu hgs
  unfold add_entry_body at h
  dsimp only at h
  generalize (if s.cache.used = s.cache.size then nccl_ofi_mr_cache_grow env s.trace s.cache
      else (0, s.cache, s.trace)) = g at hgu hgs h
  split at h
  · split at h
    · rcases h with h | h
      · injection h with h; rw [← h]; dsimp only; omega
      · cases h
    · rcases h with h | h
      · cases h
      · injection h with h; rw [← h]; dsimp only; omega
  · split at h
    · rcases h with h | h
      · injection h with h; rw [← h]; exact ⟨hcap, hpos⟩
      · cases h
    · rcases h with h | h
      · cases h
      · injection h with h; rw [← h]; exact ⟨hcap, hpos⟩

/-- At every point of the loop, and so at the return, `used <= size` and the
capacity is positive, if they were at the start. -/
theorem add_entry_loop_capacity (env : Env) (data : Nat) (size type : Int) :
    ∀ (fuel slot : Nat) (s : AddState), s.cache.used ≤ s.cache.size → 0 < s.cache.size →
      (add_entry_loop env data size type fuel slot s).state.cache.used
        ≤ (add_entry_loop env data size type fuel slot s).state.cache.size ∧
      0 < (add_entry_loop env data size type fuel slot s).state.cache.size := by
  intro fuel
  induction fuel with
  | zero => intro slot s h1 h2; exact ⟨h1, h2⟩
  | succ n ih =>
    intro slot s h1 h2
    have hb := add_entry_body_capacity env data size type slot s h1 h2
    simp only [add_entry_loop]
    cases hbody : add_entry_body env data size type slot s with
    | out s1 => exact hb s1 (Or.inl hbody)
    | next s1 =>
      obtain ⟨h3, h4⟩ := hb s1 (Or.inr hbody)
      exact ih (slot + 1) s1 h3 h4

theorem del_entry_capacity (env : Env) (c : nccl_ofi_mr_cache) (tr : List Event) (h : Nat)
    (hcap : c.used ≤ c.size) :
    (nccl_ofi_mr_cache_del_entry env c tr h).2.1.used
        ≤ (nccl_ofi_mr_cache_del_entry env c tr h).2.1.size ∧
    (nccl_ofi_mr_cache_del_entry env c tr h).2.1.size = c.size := by
  unfold nccl_ofi_mr_cache_del_entry
  dsimp only
  split
  · exact ⟨hcap, rfl⟩
  · split
    · exact ⟨hcap, rfl⟩
    · split
      · dsimp only [nccl_ofi_mr_cache_finalize]; omega
      · dsimp only; omega

/-- For every cache with `used <= size` and a capacity of at least 1: at
every point of every `nccl_ofi_mr_cache_add_entry` call (after any number of
loop iterations, and so at its return, whether it hit, missed with or
without growth, or failed to register) `used <= size` holds and the capacity
is still at least 1; the same after every `nccl_ofi_mr_cache_del_entry`
call; and after the grow-if-full step of a miss the capacity is strictly
greater than the current length. -/
theorem capacity_preserved_of_pos (env : Env) (c : nccl_ofi_mr_cache) (tr : List Event)
    (hcap : c.used ≤ c.size) (hpos : 0 < c.size) :
    (∀ (data : Nat) (size type : Int) (h0 : Option Nat) (fuel : Nat),
      (nccl_ofi_mr_cache_add_entry env fuel c tr data size type h0).state.cache.used
        ≤ (nccl_ofi_mr_cache_add_entry env fuel c tr data size type h0).state.cache.size ∧
      0 < (nccl_ofi_mr_cache_add_entry env fuel c tr data size type h0).state.cache.size) ∧
    (∀ h : Nat,
      (nccl_ofi_mr_cache_del_entry env c tr h).2.1.used
        ≤ (nccl_ofi_mr_cache_del_entry env c tr h).2.1.size ∧
      0 < (nccl_ofi_mr_cache_del_entry env c tr h).2.1.size) ∧
    c.used < (grow_if_full env tr c).size := by
  refine ⟨?_, ?_, (grow_if_full_size env tr c hcap hpos).1⟩
  · intro data size type h0 fuel
    unfold nccl_ofi_mr_cache_add_entry
    exact add_entry_loop_capacity env data size type fuel 0 ⟨c, tr, h0, 0⟩ hcap hpos
  · intro h
    obtain ⟨h1, h2⟩ := del_entry_capacity env c tr h hcap
    exact ⟨h1, by rw [h2]; exact hpos⟩

/-- C19 (a cache of capacity 0 outgrows its array).  The object that
`nccl_ofi_mr_cache_init` allocates is zero-filled for every `size` argument:
it has `size = 0` and `used = 0`, and the caller's object is left as it was.
For every cache with `size = 0` and `used = 0`, every environment and every
history: the grow-if-full step of a miss runs `nccl_ofi_mr_cache_grow`,
which doubles 0 to 0, so afterwards the capacity is not greater than the
length; and for every request whose registration succeeds, the first
iteration of `nccl_ofi_mr_cache_add_entry` stores the new entry in cell 0
and leaves `used = 1` with `size = 0`, so `used <= size` no longer holds.
With page size 4096 and the cache that `nccl_ofi_mr_cache_init(cache, 128)`
allocates, `add(addr = 0, size = 4096)` does so. -/
theorem C19_capacity_zero_overrun :
    (∀ (ienv : InitEnv) (cache : nccl_ofi_mr_cache) (size : Int) (p : Nat),
      ienv.calloc_cache = some p →
      (nccl_ofi_mr_cache_init ienv cache size).cache = cache ∧
      ∃ c0, (nccl_ofi_mr_cache_init ienv cache size).allocated = some c0 ∧
        c0.size = 0 ∧ c0.used = 0) ∧
    (∀ (env : Env) (tr : List Event) (c : nccl_ofi_mr_cache), c.size = 0 → c.used = 0 →
      (if c.used = c.size then nccl_ofi_mr_cache_grow env tr c else (0, c, tr))
        = nccl_ofi_mr_cache_grow env tr c ∧
      (grow_if_full env tr c).size = 0 ∧ ¬ c.used < (grow_if_full env tr c).size) ∧
    (∀ (env : Env) (tr : List Event) (c : nccl_ofi_mr_cache) (data : Nat) (size type : Int)
      (h0 : Option Nat), c.size = 0 → c.used = 0 →
      0 ≤ miss_reg_status env tr c data size type →
      ∃ s, nccl_ofi_mr_cache_add_entry env 1 c tr data size type h0 = Outcome.running 1 s ∧
        s.cache.used = 1 ∧ s.cache.size = 0 ∧
        (s.cache.slots 0).entry.addr = page_addr env data ∧
        (s.cache.slots 0).entry.pages = page_count env data size ∧
        (s.cache.slots 0).entry.refcnt = 1 ∧
        ¬ s.cache.used ≤ s.cache.size) ∧
    (∃ c0, (nccl_ofi_mr_cache_init ⟨some 500, 12, 0⟩ (emptyCache 0) 128).allocated = some c0 ∧
      (nccl_ofi_mr_cache_init ⟨some 500, 12, 0⟩ (emptyCache 0) 128).ret = 0 ∧
      c0.used ≤ c0.size ∧
      0 ≤ miss_reg_status (demoEnv (fun _ => false) 0) [] c0 0 4096 0 ∧
      (nccl_ofi_mr_cache_add_entry (demoEnv (fun _ => false) 0) 1 c0 []
        0 4096 0 none).state.cache.used = 1 ∧
      (nccl_ofi_mr_cache_add_entry (demoEnv (fun _ => false) 0) 1 c0 []
        0 4096 0 none).state.cache.size = 0 ∧
      ¬ ((nccl_ofi_mr_cache_add_entry (demoEnv (fun _ => false) 0) 1 c0 []
          0 4096 0 none).state.cache.used
        ≤ (nccl_ofi_mr_cache_add_entry (demoEnv (fun _ => false) 0) 1 c0 []
          0 4096 0 none).state.cache.size)) := by
  have hgrow : ∀ (env : Env) (tr : List Event) (c : nccl_ofi_mr_cache), c.size = 0 →
      c.used = 0 → (grow_if_full env tr c).size = 0 := by
    intro env tr c hs hu
    unfold grow_if_full
    rw [if_pos (by omega), grow_size, hs]
  refine ⟨?_, ?_, ?_, ?_⟩
  · intro ienv cache size p hp
    unfold nccl_ofi_mr_cache_init
    rw [hp]
    exact ⟨rfl, _, rfl, rfl, rfl⟩
  · intro env tr c hs hu
    refine ⟨if_pos (by omega), hgrow env tr c hs hu, ?_⟩
    rw [hgrow env tr c hs hu]
    omega
  · intro env tr c data size type h0 hs hu hok
    obtain ⟨s1, hb, hused, haddr, hpages, href, _, _⟩ :=
      add_entry_body_miss_ok env data size type 0 ⟨c, tr, h0, 0⟩ (Or.inl hu.symm) hok
        (Nat.zero_le _) (by dsimp only; omega)
    have hsize := add_entry_body_miss_size env data size type 0 ⟨c, tr, h0, 0⟩
      (Or.inl hu.symm) s1 (Or.inr hb)
    dsimp only at hused hsize
    rw [hgrow env tr c hs hu] at hsize
    refine ⟨s1, ?_, by omega, hsize, haddr, hpages, href, by omega⟩
    unfold nccl_ofi_mr_cache_add_entry
    simp only [add_entry_loop, hb]
  · exact ⟨_, rfl, by decide, by decide, by decide, by decide, by decide, by decide⟩

/-! ## Indices touched by the shifts -/

/-- C20 (the right shift writes one cell past the array).  A cell that
`memmove` does not list as written keeps its value.  For every capacity
`size` and every slot below it, the right shift of
`nccl_ofi_mr_cache_add_entry`, which moves `size - slot` cells from `slot`
to `slot + 1`, writes index `size`, which is not below the capacity; for the
empty cache of capacity 128 and a miss at slot 0 the cell at index 128
receives the value of cell 127.  The left shift of
`nccl_ofi_mr_cache_del_entry`, which moves `size - slot - 1` cells from
`slot + 1` to `slot`, only touches indices below `size`. -/
theorem C20_right_shift_past_capacity :
    (∀ (mem : Nat → Slot) (dst src n i : Nat),
      i ∉ memmove_writes dst n → memmove mem dst src n i = mem i) ∧
    (∀ (size slot : Nat), size ≤ slot ∨ size ∈ memmove_writes (slot + 1) (size - slot)) ∧
    cacheTail.slots 128 = nullSlot ∧
    (nccl_ofi_mr_cache_add_entry (demoEnv (fun _ => false) 0) 1 cacheTail [] 0 4096 0
      none).state.cache.size = 128 ∧
    (nccl_ofi_mr_cache_add_entry (demoEnv (fun _ => false) 0) 1 cacheTail [] 0 4096 0
      none).state.cache.slots 128 = ⟨9999, ⟨1, 1, 1, 1⟩⟩ ∧
    (∀ (size slot i : Nat),
      i ∈ memmove_reads (slot + 1) (size - slot - 1) ++ memmove_writes slot (size - slot - 1) →
      i < size) := by
  refine ⟨?_, ?_, by decide, by decide, by decide, ?_⟩
  · intro mem dst src n i hi
    unfold memmove_writes at hi
    rw [List.mem_range'_1] at hi
    simp only [memmove, hi, if_false]
  · intro size slot
    by_cases h : size ≤ slot
    · exact Or.inl h
    · right
      unfold memmove_writes
      rw [List.mem_range'_1]
      omega
  · intro size slot i hi
    unfold memmove_reads memmove_writes at hi
    rw [List.mem_append, List.mem_range'_1, List.mem_range'_1] at hi
    omega


/-! ## The PCI path shim -/

/-- C21 (`pciPath_v2` stores the device name).  For every environment and
device id: when `nccl_net_ofi_get_properties` fails, `pciPath_v2` returns
that status and leaves `*path` as it was; when it succeeds, `pciPath_v2`
returns `ncclSuccess` and stores in `*path` the device's `name`, while
`getProperties_v6` has put the device's `pci_path` in `pciPath`.  For the
device named `ofi0` with PCI path `/sys/devices/pci0000:00` the call stores
`ofi0`. -/
theorem C21_pciPath_v2_stores_name :
    (∀ (nenv : NetEnv) (dev_id : Int) (path : Option String) (props_v6 : ncclNetProperties_v6),
      pciPath_v2 nenv dev_id path props_v6 =
        if (nenv.nccl_net_ofi_get_properties dev_id).1 ≠ nenv.ncclSuccess then
          ((nenv.nccl_net_ofi_get_properties dev_id).1, path)
        else
          (nenv.ncclSuccess, some (nenv.nccl_net_ofi_get_properties dev_id).2.name)) ∧
    (∀ (nenv : NetEnv) (dev_id : Int) (props : ncclNetProperties_v6),
      (getProperties_v6 nenv dev_id props).2.pciPath =
        if (nenv.nccl_net_ofi_get_properties dev_id).1 ≠ nenv.ncclSuccess then props.pciPath
        else (nenv.nccl_net_ofi_get_properties dev_id).2.pci_path) ∧
    (getProperties_v6 demoNetEnv 0 stackProps).1 = demoNetEnv.ncclSuccess ∧
    (getProperties_v6 demoNetEnv 0 stackProps).2.pciPath = "/sys/devices/pci0000:00" ∧
    pciPath_v2 demoNetEnv 0 none stackProps = (demoNetEnv.ncclSuccess, some "ofi0") ∧
    pciPath_v2 demoNetEnv 1 none stackProps = (2, none) := by
  refine ⟨?_, ?_, by decide, by decide, by decide, by decide⟩
  · intro nenv dev_id path props_v6
    unfold pciPath_v2 getProperties_v6
    dsimp only
    by_cases h : (nenv.nccl_net_ofi_get_properties dev_id).1 ≠ nenv.ncclSuccess
    · simp only [h, if_true, ne_eq, not_false_eq_true]
    · simp only [h, if_false, ne_eq, not_true_eq_false]
  · intro nenv dev_id props
    unfold getProperties_v6
    dsimp only
    split <;> rfl

end NcclOfi
